import Mathlib

set_option linter.unusedVariables false
set_option linter.unreachableTactic false
set_option linter.unusedTactic false

/-!
Verification of the query execution and response assembly engine of the
bramble federating gateway (`execution2.go`).

The Go code works on dynamically typed JSON values (`interface{}` holding
`map[string]interface{}`, `[]interface{}`, `string`, numbers, booleans or
`nil`).  We embed those values as the inductive type `J` below.  A Go
`map[string]interface{}` is embedded as an association list with unique
keys; the order of the list models the (unspecified) iteration order of
the Go map, so a theorem about `range` iteration must hold for every list
order, and a statement that depends on one particular order is refutable
by choosing another order for the same abstract map.

Fallible Go functions (returning `(T, error)`) are embedded as
`Except String T`; `panic` sites are embedded as distinguished outcomes.
In-place mutations of maps and slices are embedded by returning the
updated value.
-/

/-- JSON-like dynamic value, the embedding of Go `interface{}` data. -/
inductive J where
  | null
  | bool (b : Bool)
  | num (n : Int)
  | str (s : String)
  | arr (xs : List J)
  | obj (fs : List (String × J))

/-- Embedding of Go `map[string]interface{}`: an association list whose
list order models the map's (unspecified) iteration order. -/
abbrev GoMap := List (String × J)

/-- Go one-value map indexing `m[k]`: the zero value `nil` (here `J.null`)
when the key is absent. -/
def goLookup (fs : GoMap) (k : String) : J :=
  match fs.find? (fun p => p.1 == k) with
  | some p => p.2
  | none => J.null

/-- Go two-value map indexing `v, ok := m[k]`. -/
def goLookupOk (fs : GoMap) (k : String) : Option J :=
  (fs.find? (fun p => p.1 == k)).map (·.2)

/-- Go map assignment `m[k] = v`: replaces the value of an existing key in
place, otherwise adds the key. -/
def setKey : GoMap → String → J → GoMap
  | [], k, v => [(k, v)]
  | (k', v') :: rest, k, v =>
    if k' = k then (k, v) :: rest else (k', v') :: setKey rest k v

theorem sizeOf_goLookup_lt (fs : GoMap) (k : String) :
    sizeOf (goLookup fs k) < sizeOf (J.obj fs) := by
  induction fs with
  | nil => simp [goLookup]
  | cons p rest ih =>
    obtain ⟨k', v⟩ := p
    simp only [goLookup, List.find?]
    cases h : (k' == k) with
    | true => simp; omega
    | false =>
      simp only [goLookup] at ih
      cases hf : rest.find? (fun q => q.1 == k) with
      | none => simp [hf]
      | some q => simp [hf] at ih ⊢; omega

/-- The sentinel message of `errNilBoundaryData`, which the scheduler
interprets as "skip this child step". -/
def errNilBoundaryData : String :=
  "found a null when attempting to extract boundary ids"

/-- Embedding of `extractBoundaryIDs` (execution2.go:235-287).  Walks the
data along the insertion point; at the end a mapping yields its string
`_id`, or failing that its string `id`; a sequence concatenates its
elements' ids in order; a null anywhere yields the nil-boundary sentinel.
The Go `for` loop over a slice appending to `result` is embedded as
recursion over the list, concatenating in the same order and stopping at
the first error. -/
def extractBoundaryIDs (data : J) (insertionPoint : List String) :
    Except String (List String) :=
  match data with
  | J.null => .error errNilBoundaryData
  | J.obj fs =>
    match insertionPoint with
    | [] =>
      match goLookup fs "_id" with
      | J.str s => .ok [s]
      | _ =>
        match goLookup fs "id" with
        | J.str s => .ok [s]
        | _ => .error "extractBoundaryIDs: unexpected missing '_id' or 'id' in map"
    | seg :: rest => extractBoundaryIDs (goLookup fs seg) rest
  | J.arr [] => .ok []
  | J.arr (x :: xs) => do
    let ids ← extractBoundaryIDs x insertionPoint
    let rest ← extractBoundaryIDs (J.arr xs) insertionPoint
    pure (ids ++ rest)
  | _ => .error "extractBoundaryIDs: unexpected type"
termination_by (sizeOf data, insertionPoint.length)
decreasing_by
  · exact Prod.Lex.left _ _
      (by have h := sizeOf_goLookup_lt fs seg
          simp only [J.obj.sizeOf_spec] at h
          simp
          omega)
  · exact Prod.Lex.left _ _ (by simp only [J.arr.sizeOf_spec, List.cons.sizeOf_spec]; omega)
  · exact Prod.Lex.left _ _ (by simp only [J.arr.sizeOf_spec, List.cons.sizeOf_spec]; omega)

/-- Alias for the n-th aliased sub-selection.  Modelled from the spec:
`nodeAlias` is defined outside the extracted sources; the spec and the
tests in `execution2_test.go` fix the aliases as `_0`, `_1`, ... -/
def nodeAlias (n : Nat) : String := "_" ++ toString n

/-- Go `%q` string-literal rendering.  Quote and backslash escaping is
modelled; escapes of control characters are elided (no claim depends on
them). -/
def goQuote (s : String) : String :=
  "\"" ++ String.join (s.toList.map (fun c =>
    if c = '"' then "\\\"" else if c = '\\' then "\\\\" else String.singleton c)) ++ "\""

/-- Embedding of `batchBy` (execution2.go:318-324).  The Go loop runs
while `batchSize < len(items)`; it always appends the final (possibly
empty) remainder.  The Go loop does not terminate for `batchSize = 0` and
a non-empty list; the guard `0 < batchSize` makes the embedding total and
is invisible for the batch sizes `≥ 1` the claims quantify over. -/
def batchBy (items : List String) (batchSize : Nat) : List (List String) :=
  if h : batchSize < items.length ∧ 0 < batchSize then
    items.take batchSize :: batchBy (items.drop batchSize) batchSize
  else [items]
termination_by items.length
decreasing_by simp only [List.length_drop]; omega

/-- One aliased boundary sub-selection, as formatted at execution2.go:307:
`_N: <query>(id: "<id>") <selection set>`. -/
def mkSelection (idx : Nat) (query id ssql : String) : String :=
  nodeAlias idx ++ ": " ++ query ++ "(id: " ++ goQuote id ++ ") " ++ ssql

/-- The selections of one batch, with the global alias counter threaded
through (the Go `selectionIndex`, incremented once per id). -/
def selectionsOfBatch (query ssql : String) : Nat → List String → List String
  | _, [] => []
  | i, id :: rest => mkSelection i query id ssql :: selectionsOfBatch query ssql (i + 1) rest

/-- The per-batch selection lists; the alias counter continues across
batches (execution2.go:300-313). -/
def batchSelections (query ssql : String) : Nat → List (List String) → List (List String)
  | _, [] => []
  | i, b :: bs =>
    selectionsOfBatch query ssql i b :: batchSelections query ssql (i + b.length) bs

/-- Embedding of `buildBoundaryQueryDocuments` (execution2.go:289-316).
The schema-driven rendering of the step's selection set
(`formatSelectionSetSingleLine`, defined outside the extracted sources) is
taken as the opaque parameter `ssql`; the boundary field is given by its
`query` name and `array` shape. -/
def buildBoundaryQueryDocuments (ssql query : String) (array : Bool)
    (ids : List String) (batchSize : Nat) : List String :=
  if array then
    ["\x7b _result: " ++ query ++ "(ids: [" ++
      String.intercalate ", " (ids.map goQuote) ++ "]) " ++ ssql ++ " \x7d"]
  else
    (batchSelections query ssql 0 (batchBy ids batchSize)).map
      (fun sels => "\x7b " ++ String.intercalate " " sels ++ " \x7d")

/-- The non-array loop of `executeBoundaryQuery` (execution2.go:154-164):
for each document request it, then append the response's top-level values
in the order the Go `range` over the map yields them — which the
association list models; Go does not sort the keys. -/
def executeBoundaryQueryLoop (respond : String → Except String GoMap) :
    List String → List J → Except String (List J)
  | [], output => .ok output
  | doc :: docs, output =>
    match respond doc with
    | .error e => .error e
    | .ok partData => executeBoundaryQueryLoop respond docs (output ++ partData.map (·.2))

/-- Embedding of `executeBoundaryQuery` (execution2.go:151-177).  The
injected client is the parameter `respond`, giving each document's
decoded response body.  In the array branch the Go code unmarshals into a
struct with the single field `_result []interface{}`: a missing or null
`_result` decodes to a nil slice, a non-list `_result` is a decode
error. -/
def executeBoundaryQuery (respond : String → Except String GoMap)
    (documents : List String) (array : Bool) : Except String (List J) :=
  if !array then
    executeBoundaryQueryLoop respond documents []
  else
    match documents with
    | [doc] =>
      match respond doc with
      | .error e => .error e
      | .ok fs =>
        match goLookup fs "_result" with
        | J.arr xs => .ok xs
        | J.null => .ok []
        | _ => .error "json: cannot unmarshal value into field _result"
    | _ => .error "there should only be a single document for array boundary field lookups"

/-- Embedding of `boundaryIDFromMap` (execution2.go:428-442): the string
under `_id`, or failing that (absent or not a string) the string under
`id`. -/
def boundaryIDFromMap : J → Except String String
  | J.obj fs =>
    match goLookup fs "_id" with
    | J.str s => .ok s
    | _ =>
      match goLookup fs "id" with
      | J.str s => .ok s
      | _ => .error "boundaryIDFromMap: 'id' or '_id' not found"
  | _ => .error "boundaryIDFromMap: expected map to extract boundary id"

/-- Element loop of `getBoundaryFieldResults` (execution2.go:450-456):
every element must be a mapping. -/
def boundaryResultElems : List J → Except String (List GoMap)
  | [] => .ok []
  | J.obj fs :: rest => do
    let tl ← boundaryResultElems rest
    pure (fs :: tl)
  | _ :: _ => .error "getBoundaryFieldResults: expected element to be a map"

/-- Embedding of `getBoundaryFieldResults` (execution2.go:444-458). -/
def getBoundaryFieldResults : J → Except String (List GoMap)
  | J.arr xs => boundaryResultElems xs
  | _ => .error "getBoundaryFieldResults: expected value to be a slice"

/-- The copy loop at execution2.go:384-390: copy every key of a matching
entity into the destination, skipping the identifier keys `_id` and
`id`. -/
def copyNonIDKeys (ent : GoMap) (acc : GoMap) : GoMap :=
  ent.foldl (fun a p => if p.1 = "_id" ∨ p.1 = "id" then a else setKey a p.1 p.2) acc

/-- The matching loop at execution2.go:378-392: for each incoming entity,
extract its boundary id (failing if it has none) and, when it equals the
destination's id, copy its non-identifier keys into the destination. -/
def mergeBoundaryResults (dstID : String) : List GoMap → GoMap → Except String GoMap
  | [], acc => .ok acc
  | ent :: rest, acc => do
    let srcID ← boundaryIDFromMap (J.obj ent)
    if srcID = dstID then mergeBoundaryResults dstID rest (copyNonIDKeys ent acc)
    else mergeBoundaryResults dstID rest acc

mutual

/-- Embedding of `mergeExecutionResultsRec` (execution2.go:354-426).  The
in-place mutation of the destination is embedded by returning the updated
destination.  At an exhausted insertion point, a mapping source is
shallow-copied into the destination mapping (root-to-root merge) and a
sequence source is joined by boundary id; a source of any other type is a
silent no-op (the Go type switch has no default there).  During descent a
mapping descends into the segment's value and a sequence broadcasts the
merge over its elements. -/
def mergeExecutionResultsRec (src dst : J) (insertionPoint : List String) :
    Except String J :=
  match insertionPoint with
  | [] =>
    match dst with
    | J.obj ptr =>
      match src with
      | J.obj srcFs => .ok (J.obj (srcFs.foldl (fun a p => setKey a p.1 p.2) ptr))
      | J.arr xs => do
        let boundaryResults ← getBoundaryFieldResults (J.arr xs)
        let dstID ← boundaryIDFromMap (J.obj ptr)
        let ptr' ← mergeBoundaryResults dstID boundaryResults ptr
        pure (J.obj ptr')
      | _ => .ok (J.obj ptr)
    | _ => .error "mergeExecutionResultsRec: unxpected type for top-level merge"
  | seg :: rest =>
    match dst with
    | J.obj ptr => do
      let v' ← mergeIntoValue src (goLookup ptr seg) rest
      pure (J.obj (setKey ptr seg v'))
    | J.arr xs => do
      let xs' ← mergeBroadcast src xs rest
      pure (J.arr xs')
    | _ => .error "mergeExecutionResultsRec: unxpected type for non top-level merge"
termination_by (sizeOf dst, 0)
decreasing_by
  all_goals first
    | exact sizeOf_goLookup_lt _ _
    | exact lt_of_lt_of_le (sizeOf_goLookup_lt _ _) (by simp)
    | exact Prod.Lex.right _ (by omega)
    | exact Prod.Lex.left _ _ (sizeOf_goLookup_lt _ _)
    | exact Prod.Lex.left _ _ (lt_of_lt_of_le (sizeOf_goLookup_lt _ _) (by simp))
    | (simp only [J.arr.sizeOf_spec, J.obj.sizeOf_spec, List.cons.sizeOf_spec]; omega)
    | exact Prod.Lex.left _ _ (by
        simp only [J.arr.sizeOf_spec, J.obj.sizeOf_spec, List.cons.sizeOf_spec]; omega)
    | omega

/-- The inner type switch of the descent case (execution2.go:404-415): a
sequence value broadcasts, any other value is descended into directly. -/
def mergeIntoValue (src v : J) (rest : List String) : Except String J :=
  match v with
  | J.arr xs => do
    let xs' ← mergeBroadcast src xs rest
    pure (J.arr xs')
  | other => mergeExecutionResultsRec src other rest
termination_by (sizeOf v, 1)
decreasing_by
  all_goals first
    | exact sizeOf_goLookup_lt _ _
    | exact lt_of_lt_of_le (sizeOf_goLookup_lt _ _) (by simp)
    | exact Prod.Lex.right _ (by omega)
    | exact Prod.Lex.left _ _ (sizeOf_goLookup_lt _ _)
    | exact Prod.Lex.left _ _ (lt_of_lt_of_le (sizeOf_goLookup_lt _ _) (by simp))
    | (simp only [J.arr.sizeOf_spec, J.obj.sizeOf_spec, List.cons.sizeOf_spec]; omega)
    | exact Prod.Lex.left _ _ (by
        simp only [J.arr.sizeOf_spec, J.obj.sizeOf_spec, List.cons.sizeOf_spec]; omega)
    | omega

/-- The broadcast loops of `mergeExecutionResultsRec` (execution2.go:405-410
and 416-421): splice into every element, stopping at the first error. -/
def mergeBroadcast (src : J) (xs : List J) (ip : List String) : Except String (List J) :=
  match xs with
  | [] => .ok []
  | x :: tl => do
    let x' ← mergeExecutionResultsRec src x ip
    let tl' ← mergeBroadcast src tl ip
    pure (x' :: tl')
termination_by (sizeOf xs, 0)
decreasing_by
  all_goals first
    | exact sizeOf_goLookup_lt _ _
    | exact lt_of_lt_of_le (sizeOf_goLookup_lt _ _) (by simp)
    | exact Prod.Lex.right _ (by omega)
    | exact Prod.Lex.left _ _ (sizeOf_goLookup_lt _ _)
    | exact Prod.Lex.left _ _ (lt_of_lt_of_le (sizeOf_goLookup_lt _ _) (by simp))
    | (simp only [J.arr.sizeOf_spec, J.obj.sizeOf_spec, List.cons.sizeOf_spec]; omega)
    | exact Prod.Lex.left _ _ (by
        simp only [J.arr.sizeOf_spec, J.obj.sizeOf_spec, List.cons.sizeOf_spec]; omega)
    | omega

end

/-- Embedding of `ast.Type` (gqlparser): a named type or a list type,
each with a non-null flag. -/
inductive GType where
  | named (name : String) (nonNull : Bool)
  | list (elem : GType) (nonNull : Bool)
deriving DecidableEq

/-- The `Type.NonNull` field. -/
def GType.isNonNull : GType → Bool
  | .named _ nn => nn
  | .list _ nn => nn

/-- The `Type.NamedType` field: empty for a list type. -/
def GType.namedType : GType → String
  | .named n _ => n
  | .list _ _ => ""

/-- The `Type.Name()` method: the named type, or the element's name for a
list type. -/
def GType.typeName : GType → String
  | .named n _ => n
  | .list e _ => e.typeName

/-- Embedding of `ast.Selection`: a field (with alias, declared type from
`field.Definition.Type`, directive names from `field.Directives`, and an
optional sub-selection — Go distinguishes a nil `SelectionSet` from an
empty one), an inline fragment, or a named fragment spread carrying its
definition's type condition and selection set (the Go AST links the
definition). -/
inductive Selection where
  | field (al name : String) (typ : GType) (directives : List String)
    (sub : Option (List Selection))
  | inlineFragment (typeCondition : String) (sub : List Selection)
  | fragmentSpread (typeCondition : String) (sub : List Selection)

/-- Embedding of `ast.Path` elements: `ast.PathName` or `ast.PathIndex`. -/
inductive PathElem where
  | name (s : String)
  | idx (n : Nat)
deriving DecidableEq

/-- Embedding of `GraphqlError` as produced by the bubbler: message, path,
and a nil `Extensions` map. -/
structure GraphqlError where
  message : String
  path : List PathElem
deriving DecidableEq

/-- Embedding of the schema data the engine reads: `schema.Implements`,
mapping an object type name to the names of the interfaces it
implements. -/
structure GSchema where
  implements : List (String × List String)

/-- Embedding of `implementsInterface` (execution2.go:631-638). -/
def implementsInterface (schema : GSchema) (objectType interfaceType : String) : Bool :=
  match schema.implements.find? (fun p => p.1 == objectType) with
  | some p => p.2.contains interfaceType
  | none => false

mutual

/-- Embedding of `bubbleUpNullValuesInPlaceRec` (execution2.go:474-557).
Dispatches on the result value; mappings are processed by `bubbleFields`,
sequences by `bubbleElems`, anything else (including a null, since a Go
nil interface matches no case of the type switch) is the error of the
`default` branch.  In-place mutation is embedded by returning the updated
value. -/
def bubbleRec (schema : GSchema) (currentType : Option GType) (ss : List Selection)
    (result : J) (path : List PathElem) :
    Except String (List GraphqlError × Bool × J) :=
  match result with
  | J.obj fs =>
    match bubbleFields schema ss fs path [] false with
    | .error e => .error e
    | .ok (errs, b, fs') => .ok (errs, b, J.obj fs')
  | J.arr xs =>
    match bubbleElems schema currentType ss xs path 0 [] false with
    | .error e => .error e
    | .ok (errs, b, xs') => .ok (errs, b, J.arr xs')
  | _ => .error "bubbleUpNullValuesInPlaceRec: unxpected result type"
termination_by (sizeOf ss, sizeOf result, 1)

/-- The selection loop of the mapping case (execution2.go:477-537).  The
Go locals `errs` and `bubbleUp` are the accumulators; the naked `return`
in the field-is-null branch ends the whole call, skipping the remaining
selections.  A fragment (inline or spread) requires a string `__typename`,
is skipped when the type condition does not match it, and on a match
recurses over the same mapping — and then *overwrites* the `bubbleUp`
accumulator with the recursion's flag. -/
def bubbleFields (schema : GSchema) (ss : List Selection) (fs : GoMap)
    (path : List PathElem) (errs : List GraphqlError) (bubbleUp : Bool) :
    Except String (List GraphqlError × Bool × GoMap) :=
  match ss with
  | [] => .ok (errs, bubbleUp, fs)
  | Selection.field al _ typ _ sub :: rest =>
    match goLookup fs al with
    | J.null =>
      if typ.isNonNull then
        .ok (errs ++ [⟨"field failed to resolve", path ++ [PathElem.name al]⟩], true, fs)
      else
        .ok (errs, bubbleUp, fs)
    | value =>
      match sub with
      | some subSS =>
        match bubbleRec schema (some typ) subSS value (path ++ [PathElem.name al]) with
        | .error e => .error e
        | .ok (lowerErrs, lowerBubbleUp, value') =>
          if lowerBubbleUp then
            if typ.isNonNull then
              bubbleFields schema rest (setKey fs al value') path (errs ++ lowerErrs) true
            else
              bubbleFields schema rest (setKey fs al J.null) path (errs ++ lowerErrs) bubbleUp
          else
            bubbleFields schema rest (setKey fs al value') path (errs ++ lowerErrs) bubbleUp
      | none => bubbleFields schema rest fs path errs bubbleUp
  | Selection.fragmentSpread cond subSS :: rest =>
    match goLookup fs "__typename" with
    | J.str typename =>
      if typename ≠ cond ∧ ¬ implementsInterface schema typename cond then
        bubbleFields schema rest fs path errs bubbleUp
      else
        match bubbleFields schema subSS fs path [] false with
        | .error e => .error e
        | .ok (lowerErrs, lowerBubbleUp, fs') =>
          bubbleFields schema rest fs' path (errs ++ lowerErrs) lowerBubbleUp
    | _ => .error "missing expected __typename"
  | Selection.inlineFragment cond subSS :: rest =>
    match goLookup fs "__typename" with
    | J.str typename =>
      if typename ≠ cond ∧ ¬ implementsInterface schema typename cond then
        bubbleFields schema rest fs path errs bubbleUp
      else
        match bubbleFields schema subSS fs path [] false with
        | .error e => .error e
        | .ok (lowerErrs, lowerBubbleUp, fs') =>
          bubbleFields schema rest fs' path (errs ++ lowerErrs) lowerBubbleUp
    | _ => .error "missing expected __typename"
termination_by (sizeOf ss, sizeOf fs, 0)

/-- The sequence loop (execution2.go:538-552).  Each element is visited
with its index appended to the path; a bubbling element is kept (and the
flag propagated) when the declared element type is non-null, and
overwritten with null otherwise.  The Go code dereferences
`currentType.Elem` there: when the tracked type is absent or not a list
type, the Go program panics with a nil dereference, embedded as a
distinguished error. -/
def bubbleElems (schema : GSchema) (currentType : Option GType) (ss : List Selection)
    (xs : List J) (path : List PathElem) (i : Nat)
    (errs : List GraphqlError) (bubbleUp : Bool) :
    Except String (List GraphqlError × Bool × List J) :=
  match xs with
  | [] => .ok (errs, bubbleUp, [])
  | x :: rest =>
    match bubbleRec schema currentType ss x (path ++ [PathElem.idx i]) with
    | .error e => .error e
    | .ok (lowerErrs, lowerBubbleUp, x') =>
      let step :
          Except String (Bool × J) :=
        if lowerBubbleUp then
          match currentType with
          | some (GType.list elem _) =>
            if elem.isNonNull then .ok (true, x')
            else .ok (bubbleUp, J.null)
          | _ => .error "runtime error: invalid memory address or nil pointer dereference"
        else .ok (bubbleUp, x')
      match step with
      | .error e => .error e
      | .ok (b', y) =>
        match bubbleElems schema currentType ss rest path (i + 1) (errs ++ lowerErrs) b' with
        | .error e => .error e
        | .ok (errs', b'', ys) => .ok (errs', b'', y :: ys)
termination_by (sizeOf ss, sizeOf xs, 0)

end

/-- Embedding of `bubbleUpNullValuesInPlace` (execution2.go:463-472): run
the recursion from a nil current type and an empty path; a bubble-up
reaching the root is the `errNullBubbledToRoot` failure. -/
def bubbleUpNullValuesInPlace (schema : GSchema) (ss : List Selection) (result : GoMap) :
    Except String (List GraphqlError × GoMap) :=
  match bubbleFields schema ss result [] [] false with
  | .error e => .error e
  | .ok (errs, bubbleUp, result') =>
    if bubbleUp then .error "bubbleUpNullValuesInPlace: null bubbled up to root"
    else .ok (errs, result')

/-- Embedding of `selectionFields` (execution2.go:615-629): the fields of
a selection set, with inline fragments and fragment spreads flattened to
their fields in place (type conditions are not consulted here). -/
def selectionFields : List Selection → List Selection
  | [] => []
  | Selection.field al n t d sub :: rest =>
    Selection.field al n t d sub :: selectionFields rest
  | Selection.inlineFragment _ sub :: rest => selectionFields sub ++ selectionFields rest
  | Selection.fragmentSpread _ sub :: rest => selectionFields sub ++ selectionFields rest
termination_by ss => sizeOf ss

theorem perm_sizeOf_eq {α} [SizeOf α] {l₁ l₂ : List α} (h : l₁.Perm l₂) :
    sizeOf l₁ = sizeOf l₂ := by
  induction h with
  | nil => rfl
  | cons x _ ih => simp [ih]
  | swap x y l => simp; omega
  | trans _ _ ih₁ ih₂ => omega

/-- Go `json.Marshal` emits map keys in sorted order. -/
def sortFields (fs : GoMap) : GoMap :=
  fs.insertionSort (fun a b => a.1 ≤ b.1)

theorem sizeOf_sortFields (fs : GoMap) : sizeOf (sortFields fs) = sizeOf fs :=
  perm_sizeOf_eq (List.perm_insertionSort _ fs)

mutual

/-- Embedding of `json.Marshal` on the dynamic values (used for leaf
fields at execution2.go:585): canonical JSON text, object keys sorted.
String escaping is approximated by `goQuote` (control-character escapes
elided). -/
def jsonMarshal : J → String
  | J.null => "null"
  | J.bool true => "true"
  | J.bool false => "false"
  | J.num n => toString n
  | J.str s => goQuote s
  | J.arr xs => "[" ++ String.intercalate "," (marshalList xs) ++ "]"
  | J.obj fs => "\x7b" ++ String.intercalate "," (marshalFields (sortFields fs)) ++ "\x7d"
termination_by j => (sizeOf j, 1)
decreasing_by
  all_goals first
    | exact sizeOf_goLookup_lt _ _
    | exact lt_of_lt_of_le (sizeOf_goLookup_lt _ _) (by simp)
    | exact Prod.Lex.left _ _ (sizeOf_goLookup_lt _ _)
    | exact Prod.Lex.left _ _ (lt_of_lt_of_le (sizeOf_goLookup_lt _ _) (by simp))
    | exact Prod.Lex.right _ (Prod.Lex.left _ _ (by omega))
    | exact Prod.Lex.right _ (Prod.Lex.right _ (by omega))
    | exact Prod.Lex.right _ (Prod.Lex.right _ (by
        simp only [List.cons.sizeOf_spec]; omega))
    | exact Prod.Lex.left _ _ (by
        simp only [J.arr.sizeOf_spec, J.obj.sizeOf_spec, sizeOf_sortFields]; omega)
    | exact Prod.Lex.right _ (Prod.Lex.right _ (by simp; omega))
    | exact Prod.Lex.left _ _ (by simp only [sizeOf_sortFields]; omega)
    | exact Prod.Lex.left _ _ (by
        simp only [J.arr.sizeOf_spec, J.obj.sizeOf_spec, List.cons.sizeOf_spec]; omega)
    | (simp only [sizeOf_sortFields]; omega)
    | (simp only [J.arr.sizeOf_spec, J.obj.sizeOf_spec, List.cons.sizeOf_spec,
        Prod.lex_def]; omega)
    | (simp; omega)
    | simp
    | omega

def marshalList : List J → List String
  | [] => []
  | x :: rest => jsonMarshal x :: marshalList rest
termination_by xs => (sizeOf xs, 0)
decreasing_by
  all_goals first
    | exact sizeOf_goLookup_lt _ _
    | exact lt_of_lt_of_le (sizeOf_goLookup_lt _ _) (by simp)
    | exact Prod.Lex.left _ _ (sizeOf_goLookup_lt _ _)
    | exact Prod.Lex.left _ _ (lt_of_lt_of_le (sizeOf_goLookup_lt _ _) (by simp))
    | exact Prod.Lex.right _ (Prod.Lex.left _ _ (by omega))
    | exact Prod.Lex.right _ (Prod.Lex.right _ (by omega))
    | exact Prod.Lex.right _ (Prod.Lex.right _ (by
        simp only [List.cons.sizeOf_spec]; omega))
    | exact Prod.Lex.left _ _ (by
        simp only [J.arr.sizeOf_spec, J.obj.sizeOf_spec, sizeOf_sortFields]; omega)
    | exact Prod.Lex.right _ (Prod.Lex.right _ (by simp; omega))
    | exact Prod.Lex.left _ _ (by simp only [sizeOf_sortFields]; omega)
    | exact Prod.Lex.left _ _ (by
        simp only [J.arr.sizeOf_spec, J.obj.sizeOf_spec, List.cons.sizeOf_spec]; omega)
    | (simp only [sizeOf_sortFields]; omega)
    | (simp only [J.arr.sizeOf_spec, J.obj.sizeOf_spec, List.cons.sizeOf_spec,
        Prod.lex_def]; omega)
    | (simp; omega)
    | simp
    | omega

def marshalFields : GoMap → List String
  | [] => []
  | (k, v) :: rest => (goQuote k ++ ":" ++ jsonMarshal v) :: marshalFields rest
termination_by fs => (sizeOf fs, 0)
decreasing_by
  all_goals first
    | exact sizeOf_goLookup_lt _ _
    | exact lt_of_lt_of_le (sizeOf_goLookup_lt _ _) (by simp)
    | exact Prod.Lex.left _ _ (sizeOf_goLookup_lt _ _)
    | exact Prod.Lex.left _ _ (lt_of_lt_of_le (sizeOf_goLookup_lt _ _) (by simp))
    | exact Prod.Lex.right _ (Prod.Lex.left _ _ (by omega))
    | exact Prod.Lex.right _ (Prod.Lex.right _ (by omega))
    | exact Prod.Lex.right _ (Prod.Lex.right _ (by
        simp only [List.cons.sizeOf_spec]; omega))
    | exact Prod.Lex.left _ _ (by
        simp only [J.arr.sizeOf_spec, J.obj.sizeOf_spec, sizeOf_sortFields]; omega)
    | exact Prod.Lex.right _ (Prod.Lex.right _ (by simp; omega))
    | exact Prod.Lex.left _ _ (by simp only [sizeOf_sortFields]; omega)
    | exact Prod.Lex.left _ _ (by
        simp only [J.arr.sizeOf_spec, J.obj.sizeOf_spec, List.cons.sizeOf_spec]; omega)
    | (simp only [sizeOf_sortFields]; omega)
    | (simp only [J.arr.sizeOf_spec, J.obj.sizeOf_spec, List.cons.sizeOf_spec,
        Prod.lex_def]; omega)
    | (simp; omega)
    | simp
    | omega

end

mutual

/-- Embedding of `formatResponseDataRec` (execution2.go:563-613).  A nil
value prints `null`; a mapping prints the fields of the (flattened)
selection set in selection order, failing on any field whose alias is
absent from the mapping; a sequence prints its elements; any other value
falls through the Go type switch and yields the empty string. -/
def formatResponseDataRec (ss : List Selection) (result : J) : Except String String :=
  match result with
  | J.null => .ok "null"
  | J.obj fs =>
    match formatFieldsRec (selectionFields ss) fs with
    | .error e => .error e
    | .ok parts => .ok ("\x7b" ++ String.intercalate "," parts ++ "\x7d")
  | J.arr xs =>
    match formatElemsRec ss xs with
    | .error e => .error e
    | .ok parts => .ok ("[" ++ String.intercalate "," parts ++ "]")
  | _ => .ok ""
termination_by (sizeOf result, 1, 0)
decreasing_by
  all_goals first
    | exact sizeOf_goLookup_lt _ _
    | exact lt_of_lt_of_le (sizeOf_goLookup_lt _ _) (by simp)
    | exact Prod.Lex.left _ _ (sizeOf_goLookup_lt _ _)
    | exact Prod.Lex.left _ _ (lt_of_lt_of_le (sizeOf_goLookup_lt _ _) (by simp))
    | exact Prod.Lex.right _ (Prod.Lex.left _ _ (by omega))
    | exact Prod.Lex.right _ (Prod.Lex.right _ (by omega))
    | exact Prod.Lex.right _ (Prod.Lex.right _ (by
        simp only [List.cons.sizeOf_spec]; omega))
    | exact Prod.Lex.left _ _ (by
        simp only [J.arr.sizeOf_spec, J.obj.sizeOf_spec, sizeOf_sortFields]; omega)
    | exact Prod.Lex.right _ (Prod.Lex.right _ (by simp; omega))
    | exact Prod.Lex.left _ _ (by simp only [sizeOf_sortFields]; omega)
    | exact Prod.Lex.left _ _ (by
        simp only [J.arr.sizeOf_spec, J.obj.sizeOf_spec, List.cons.sizeOf_spec]; omega)
    | (simp only [sizeOf_sortFields]; omega)
    | (simp only [J.arr.sizeOf_spec, J.obj.sizeOf_spec, List.cons.sizeOf_spec,
        Prod.lex_def]; omega)
    | (simp; omega)
    | simp
    | omega

/-- The field loop of the mapping case (execution2.go:571-595).  The Go
two-value lookup `fieldData, ok := result[field.Alias]` fails the whole
call when the alias is missing — the field's declared nullability is not
consulted. -/
def formatFieldsRec : List Selection → GoMap → Except String (List String)
  | [], _ => .ok []
  | Selection.field al _ _ _ sub :: rest, fs =>
    if (fs.find? (fun p => p.1 == al)).isNone then
      .error ("could not find value in data for field " ++ al)
    else
      match formatFieldValue sub al (goLookup fs al) with
      | .error e => .error e
      | .ok part =>
        match formatFieldsRec rest fs with
        | .error e => .error e
        | .ok tl => .ok (part :: tl)
  | _ :: _, _ => .error "selectionFields returns fields only"
termination_by sel fs => (sizeOf (J.obj fs), 0, sizeOf sel)
decreasing_by
  all_goals first
    | exact sizeOf_goLookup_lt _ _
    | exact lt_of_lt_of_le (sizeOf_goLookup_lt _ _) (by simp)
    | exact Prod.Lex.left _ _ (sizeOf_goLookup_lt _ _)
    | exact Prod.Lex.left _ _ (lt_of_lt_of_le (sizeOf_goLookup_lt _ _) (by simp))
    | exact Prod.Lex.right _ (Prod.Lex.left _ _ (by omega))
    | exact Prod.Lex.right _ (Prod.Lex.right _ (by omega))
    | exact Prod.Lex.right _ (Prod.Lex.right _ (by
        simp only [List.cons.sizeOf_spec]; omega))
    | exact Prod.Lex.left _ _ (by
        simp only [J.arr.sizeOf_spec, J.obj.sizeOf_spec, sizeOf_sortFields]; omega)
    | exact Prod.Lex.right _ (Prod.Lex.right _ (by simp; omega))
    | exact Prod.Lex.left _ _ (by simp only [sizeOf_sortFields]; omega)
    | exact Prod.Lex.left _ _ (by
        simp only [J.arr.sizeOf_spec, J.obj.sizeOf_spec, List.cons.sizeOf_spec]; omega)
    | (simp only [sizeOf_sortFields]; omega)
    | (simp only [J.arr.sizeOf_spec, J.obj.sizeOf_spec, List.cons.sizeOf_spec,
        Prod.lex_def]; omega)
    | (simp; omega)
    | simp
    | omega

/-- Rendering of one field: `"<alias>": <value>`, recursing when the field
has a sub-selection and marshalling the leaf value otherwise. -/
def formatFieldValue (sub : Option (List Selection)) (al : String) (v : J) :
    Except String String :=
  match sub with
  | some subSS =>
    match formatResponseDataRec subSS v with
    | .error e => .error e
    | .ok inner => .ok ("\"" ++ al ++ "\":" ++ inner)
  | none => .ok ("\"" ++ al ++ "\":" ++ jsonMarshal v)
termination_by (sizeOf v, 2, 0)
decreasing_by
  all_goals first
    | exact sizeOf_goLookup_lt _ _
    | exact lt_of_lt_of_le (sizeOf_goLookup_lt _ _) (by simp)
    | exact Prod.Lex.left _ _ (sizeOf_goLookup_lt _ _)
    | exact Prod.Lex.left _ _ (lt_of_lt_of_le (sizeOf_goLookup_lt _ _) (by simp))
    | exact Prod.Lex.right _ (Prod.Lex.left _ _ (by omega))
    | exact Prod.Lex.right _ (Prod.Lex.right _ (by omega))
    | exact Prod.Lex.right _ (Prod.Lex.right _ (by
        simp only [List.cons.sizeOf_spec]; omega))
    | exact Prod.Lex.left _ _ (by
        simp only [J.arr.sizeOf_spec, J.obj.sizeOf_spec, sizeOf_sortFields]; omega)
    | exact Prod.Lex.right _ (Prod.Lex.right _ (by simp; omega))
    | exact Prod.Lex.left _ _ (by simp only [sizeOf_sortFields]; omega)
    | exact Prod.Lex.left _ _ (by
        simp only [J.arr.sizeOf_spec, J.obj.sizeOf_spec, List.cons.sizeOf_spec]; omega)
    | (simp only [sizeOf_sortFields]; omega)
    | (simp only [J.arr.sizeOf_spec, J.obj.sizeOf_spec, List.cons.sizeOf_spec,
        Prod.lex_def]; omega)
    | (simp; omega)
    | simp
    | omega

/-- The element loop of the sequence case (execution2.go:597-610). -/
def formatElemsRec (ss : List Selection) : List J → Except String (List String)
  | [] => .ok []
  | x :: rest =>
    match formatResponseDataRec ss x with
    | .error e => .error e
    | .ok part =>
      match formatElemsRec ss rest with
      | .error e => .error e
      | .ok tl => .ok (part :: tl)
termination_by xs => (sizeOf (J.arr xs), 0, 0)
decreasing_by
  all_goals first
    | exact sizeOf_goLookup_lt _ _
    | exact lt_of_lt_of_le (sizeOf_goLookup_lt _ _) (by simp)
    | exact Prod.Lex.left _ _ (sizeOf_goLookup_lt _ _)
    | exact Prod.Lex.left _ _ (lt_of_lt_of_le (sizeOf_goLookup_lt _ _) (by simp))
    | exact Prod.Lex.right _ (Prod.Lex.left _ _ (by omega))
    | exact Prod.Lex.right _ (Prod.Lex.right _ (by omega))
    | exact Prod.Lex.right _ (Prod.Lex.right _ (by
        simp only [List.cons.sizeOf_spec]; omega))
    | exact Prod.Lex.left _ _ (by
        simp only [J.arr.sizeOf_spec, J.obj.sizeOf_spec, sizeOf_sortFields]; omega)
    | exact Prod.Lex.right _ (Prod.Lex.right _ (by simp; omega))
    | exact Prod.Lex.left _ _ (by simp only [sizeOf_sortFields]; omega)
    | exact Prod.Lex.left _ _ (by
        simp only [J.arr.sizeOf_spec, J.obj.sizeOf_spec, List.cons.sizeOf_spec]; omega)
    | (simp only [sizeOf_sortFields]; omega)
    | (simp only [J.arr.sizeOf_spec, J.obj.sizeOf_spec, List.cons.sizeOf_spec,
        Prod.lex_def]; omega)
    | (simp; omega)
    | simp
    | omega

end

theorem sizeOf_append_selection (l₁ l₂ : List Selection) :
    sizeOf (l₁ ++ l₂) + 1 = sizeOf l₁ + sizeOf l₂ := by
  induction l₁ with
  | nil => simp; omega
  | cons s rest ih => simp only [List.cons_append, List.cons.sizeOf_spec]; omega

theorem sizeOf_sub_lt_inline (c : String) (sub : List Selection) :
    sizeOf sub < sizeOf (Selection.inlineFragment c sub) := by
  decreasing_tactic

theorem sizeOf_sub_lt_spread (c : String) (sub : List Selection) :
    sizeOf sub < sizeOf (Selection.fragmentSpread c sub) := by
  decreasing_tactic

theorem sizeOf_append_lt_inline (c : String) (sub rest : List Selection) :
    sizeOf (sub ++ rest) < sizeOf (Selection.inlineFragment c sub :: rest) := by
  have h := sizeOf_append_selection sub rest
  have h2 := sizeOf_sub_lt_inline c sub
  simp only [List.cons.sizeOf_spec]
  omega

theorem sizeOf_append_lt_spread (c : String) (sub rest : List Selection) :
    sizeOf (sub ++ rest) < sizeOf (Selection.fragmentSpread c sub :: rest) := by
  have h := sizeOf_append_selection sub rest
  have h2 := sizeOf_sub_lt_spread c sub
  simp only [List.cons.sizeOf_spec]
  omega

/-- Embedding of `hasNamespaceDirective` (execution2.go:225-232): a
directive whose `Name` is the literal `"@namespace"`. -/
def hasNamespaceDirective (directiveList : List String) : Bool :=
  directiveList.contains "@namespace"

/-- The loop of `BuildTypenameResponseMap` (execution2.go:198-223).  The
Go code iterates `selectionSetToFields(selectionSet)`; that helper is not
among the extracted sources and is modelled from the spec like the
extracted `selectionFields`: fragments are flattened to their fields in
place.  Here the flattening is fused into the loop (a fragment's
selections are processed, then the rest), which computes the same left
fold over the flattened field list. -/
def buildTypenameLoop (parent : String) : List Selection → GoMap → Except String GoMap
  | [], acc => .ok acc
  | Selection.field al name typ dirs sub :: rest, acc =>
    match sub with
    | some subSS =>
      if typ.namedType = "" then .error "expected named type"
      else if ¬ hasNamespaceDirective dirs then .error "expected namespace directive"
      else
        match buildTypenameLoop typ.typeName subSS [] with
        | .error e => .error e
        | .ok m => buildTypenameLoop parent rest (setKey acc al (J.obj m))
    | none =>
      if name ≠ "__typename" then .error "expected __typename"
      else buildTypenameLoop parent rest (setKey acc al (J.str parent))
  | Selection.inlineFragment _ subSS :: rest, acc =>
    buildTypenameLoop parent (subSS ++ rest) acc
  | Selection.fragmentSpread _ subSS :: rest, acc =>
    buildTypenameLoop parent (subSS ++ rest) acc
termination_by ss => sizeOf ss
decreasing_by
  all_goals first
    | decreasing_tactic
    | exact sizeOf_append_lt_inline _ _ _
    | exact sizeOf_append_lt_spread _ _ _

/-- Embedding of `BuildTypenameResponseMap` (execution2.go:198-223). -/
def BuildTypenameResponseMap (ss : List Selection) (parentTypeName : String) :
    Except String GoMap :=
  buildTypenameLoop parentTypeName ss []

/-- The well-shapedness condition of the spec for internal (typename
synthesis) steps, written from the spec's words: every leaf field is
`__typename`; every non-leaf field carries a sub-selection, a named type
and the namespace directive and is recursively well shaped; fragments
contribute their flattened fields. -/
def typenameWellShaped : List Selection → Bool
  | [] => true
  | Selection.field _ name typ dirs sub :: rest =>
    (match sub with
     | some subSS =>
       typ.namedType ≠ "" && hasNamespaceDirective dirs && typenameWellShaped subSS
     | none => name == "__typename") && typenameWellShaped rest
  | Selection.inlineFragment _ subSS :: rest => typenameWellShaped (subSS ++ rest)
  | Selection.fragmentSpread _ subSS :: rest => typenameWellShaped (subSS ++ rest)
termination_by ss => sizeOf ss
decreasing_by
  all_goals first
    | decreasing_tactic
    | exact sizeOf_append_lt_inline _ _ _
    | exact sizeOf_append_lt_spread _ _ _

/-- The response mapping described by the spec for internal steps: each
`__typename` alias is bound to the enclosing parent type's name, and each
non-leaf alias to the mapping obtained by recursing with the field's
declared named type. -/
def typenameSpecMap (parent : String) : List Selection → GoMap → GoMap
  | [], acc => acc
  | Selection.field al _ typ _ sub :: rest, acc =>
    match sub with
    | some subSS =>
      typenameSpecMap parent rest (setKey acc al (J.obj (typenameSpecMap typ.typeName subSS [])))
    | none => typenameSpecMap parent rest (setKey acc al (J.str parent))
  | Selection.inlineFragment _ subSS :: rest, acc => typenameSpecMap parent (subSS ++ rest) acc
  | Selection.fragmentSpread _ subSS :: rest, acc => typenameSpecMap parent (subSS ++ rest) acc
termination_by ss => sizeOf ss
decreasing_by
  all_goals first
    | decreasing_tactic
    | exact sizeOf_append_lt_inline _ _ _
    | exact sizeOf_append_lt_spread _ _ _

/-- Embedding of `ExecutionResult` (execution2.go:22-26); the result has
no field for errors. -/
structure ExecutionResult where
  serviceURL : String
  insertionPoint : List String
  data : J

/-- What a scheduler task does from the outside: it either sends an
`ExecutionResult` on the results channel, or the goroutine panics. -/
inductive StepOutcome where
  | emitted (r : ExecutionResult)
  | panicked (msg : String)

/-- Embedding of the dispatch-and-report part of `ExecuteRootStep`
(execution2.go:81-102).  The rendering of the selection set
(`formatSelectionSet`, outside the extracted sources) is the parameter
`ssql`; the injected client is `client`, mapping a service URL and a
document to a decoded response or an error.  A parent type other than
Query/Mutation panics (execution2.go:90), and a client error panics
(execution2.go:99, the `FIXME: error handling with channels` site)
instead of attaching the error to the emitted result. -/
def ExecuteRootStep (parentType ssql serviceURL : String)
    (insertionPoint : List String)
    (client : String → String → Except String GoMap) : StepOutcome :=
  if parentType = "Query" ∨ parentType = "Mutation" then
    let document := (if parentType = "Query" then "query " else "mutation ") ++ ssql
    match client serviceURL document with
    | .error e => StepOutcome.panicked e
    | .ok data => StepOutcome.emitted ⟨serviceURL, insertionPoint, J.obj data⟩
  else StepOutcome.panicked "non mutation or query root step"

/-- A value is obtained from another by overwriting some existing mapping
values or sequence elements with null, and nothing else: keys are never
added or removed, lengths never change, and the only written value is
null. -/
inductive OnlyNulled : J → J → Prop where
  | refl (v : J) : OnlyNulled v v
  | toNull (v : J) : OnlyNulled v J.null
  | objNil : OnlyNulled (J.obj []) (J.obj [])
  | objCons (k : String) (v w : J) (fs gs : GoMap) :
      OnlyNulled v w → OnlyNulled (J.obj fs) (J.obj gs) →
      OnlyNulled (J.obj ((k, v) :: fs)) (J.obj ((k, w) :: gs))
  | arrNil : OnlyNulled (J.arr []) (J.arr [])
  | arrCons (x y : J) (xs ys : List J) :
      OnlyNulled x y → OnlyNulled (J.arr xs) (J.arr ys) →
      OnlyNulled (J.arr (x :: xs)) (J.arr (y :: ys))

/-- The nested-list input of the spec's extractor scenario 1. -/
def c7data : J :=
  J.obj [("gizmos", J.arr
    [ J.obj [("owner", J.obj [("_id", J.str "1")])]
    , J.obj [("owner", J.obj [("id", J.str "1")])]
    , J.obj [("owner", J.obj [("_id", J.str "2")])]
    , J.obj [("owner", J.obj [("id", J.str "5")])] ])]

/-- C7: the Boundary-ID Extractor returns ids in depth-first order of the
parent records; a terminal mapping contributes its string `_id`, or
failing that its string `id` (preferring `_id`); a sequence contributes
its elements' ids concatenated in element order; on the spec's nested
list input it returns `["1","1","2","5"]`. -/
theorem c7_extractor_order :
    (extractBoundaryIDs c7data ["gizmos", "owner"] = .ok ["1", "1", "2", "5"]) ∧
    (∀ fs s, goLookup fs "_id" = J.str s →
      extractBoundaryIDs (J.obj fs) [] = .ok [s]) ∧
    (∀ fs s, (∀ t, goLookup fs "_id" ≠ J.str t) → goLookup fs "id" = J.str s →
      extractBoundaryIDs (J.obj fs) [] = .ok [s]) ∧
    (∀ xs p rs, List.Forall₂ (fun x r => extractBoundaryIDs x p = .ok r) xs rs →
      extractBoundaryIDs (J.arr xs) p = .ok rs.flatten) := by
  refine ⟨?_, ?_, ?_, ?_⟩
  · simp [c7data, extractBoundaryIDs, goLookup]
    rfl
  · intro fs s h
    simp [extractBoundaryIDs, h]
  · intro fs s hno h
    cases hid : goLookup fs "_id" with
    | str t => exact absurd hid (hno t)
    | _ => simp [extractBoundaryIDs, hid, h]
  · intro xs p rs h
    induction h with
    | nil => simp [extractBoundaryIDs]
    | cons hx hrest ih =>
      simp [extractBoundaryIDs, hx, ih]
      rfl

/-- Witness for C7 at concrete inputs: the list rule applied to a
two-element sequence of boundary records. -/
theorem c7_extractor_order_witness :
    extractBoundaryIDs (J.arr [J.obj [("_id", J.str "7")], J.obj [("id", J.str "8")]]) []
      = .ok ["7", "8"] := by
  have h := c7_extractor_order.2.2.2
    [J.obj [("_id", J.str "7")], J.obj [("id", J.str "8")]] [] [["7"], ["8"]]
  simp only [List.flatten] at h
  apply h
  refine List.Forall₂.cons ?_ (List.Forall₂.cons ?_ List.Forall₂.nil)
  · exact c7_extractor_order.2.1 [("_id", J.str "7")] "7" (by simp [goLookup])
  · exact c7_extractor_order.2.2.1 [("id", J.str "8")] "8"
      (by intro t; simp [goLookup]) (by simp [goLookup])

/-- C3: the code panics on a remote client error instead of attaching it
to the step's ExecutionResult — the claim describes the spec's intent
(the code marks the site `FIXME: error handling with channels` and
`ExecutionResult` has no error field at all), so this exhibits the
divergence: a root step whose client fails produces a goroutine panic and
no emitted result. -/
theorem c3_root_step_panics_on_client_error :
    ExecuteRootStep "Query" "\x7b gizmos \x7d" "http://service-a" []
      (fun _ _ => .error "connection refused")
      = StepOutcome.panicked "connection refused" := by
  rfl

theorem batchBy_flatten (ids : List String) (B : Nat) :
    (batchBy ids B).flatten = ids := by
  induction ids, B using batchBy.induct with
  | case1 items b h ih =>
    rw [batchBy]
    simp [h, ih]
  | case2 items b h =>
    rw [batchBy]
    simp [h]

theorem batchBy_length (ids : List String) (B : Nat) :
    1 ≤ B → ids ≠ [] → (batchBy ids B).length = (ids.length + B - 1) / B := by
  induction ids, B using batchBy.induct with
  | case1 items b h ih =>
    intro hB hN
    rw [batchBy, dif_pos h]
    have hlen : (items.drop b).length = items.length - b := by simp
    have hne : items.drop b ≠ [] := by
      intro hc
      have h3 : (items.drop b).length = 0 := by rw [hc]; rfl
      rw [hlen] at h3
      omega
    simp only [List.length_cons]
    rw [ih hB hne]
    have hb := h.2
    have hlt := h.1
    rw [hlen]
    have he : items.length - b + b - 1 = items.length - 1 := by omega
    rw [he]
    have h2 : items.length + b - 1 = (items.length - 1) + b := by omega
    rw [h2, Nat.add_div_right _ hb]
  | case2 items b h =>
    intro hB hN
    rw [batchBy, dif_neg h]
    have hble : items.length ≤ b := by
      by_contra hc
      exact h ⟨by omega, hB⟩
    have hpos : 1 ≤ items.length := by
      cases items with
      | nil => exact absurd rfl hN
      | cons a l => simp
    have hd := Nat.div_eq_of_lt_le
      (by omega : 1 * b ≤ items.length + b - 1)
      (by omega : items.length + b - 1 < (1 + 1) * b)
    simp only [List.length_singleton]
    omega

theorem selectionsOfBatch_append (q s : String) (i : Nat) (l₁ l₂ : List String) :
    selectionsOfBatch q s i (l₁ ++ l₂) =
      selectionsOfBatch q s i l₁ ++ selectionsOfBatch q s (i + l₁.length) l₂ := by
  induction l₁ generalizing i with
  | nil => simp [selectionsOfBatch]
  | cons x rest ih =>
    simp [selectionsOfBatch, ih, Nat.add_assoc, Nat.add_comm, Nat.add_left_comm]

theorem batchSelections_flatten (q s : String) (i : Nat) (bs : List (List String)) :
    (batchSelections q s i bs).flatten = selectionsOfBatch q s i bs.flatten := by
  induction bs generalizing i with
  | nil => simp [batchSelections, selectionsOfBatch]
  | cons b rest ih =>
    simp [batchSelections, selectionsOfBatch_append, ih]

theorem batchSelections_length (q s : String) (i : Nat) (bs : List (List String)) :
    (batchSelections q s i bs).length = bs.length := by
  induction bs generalizing i with
  | nil => rfl
  | cons b rest ih => simp [batchSelections, ih]

/-- C4 (amended): for a non-array boundary step with at least one id and
batch size `B ≥ 1`, the builder emits `⌈N/B⌉` documents; each document
renders one batch's selections, and the selections across all batches in
order are exactly one `_i: query(id: "idᵢ") ...` selection per id, in
input order, with the alias counter `i` ascending globally from `_0`
(see `selectionsOfBatch`).  The original claim's `⌈N/B⌉` count fails for
`N = 0`, where the code still emits one (empty) document. -/
theorem c4_boundary_builder (ssql q : String) (ids : List String) (B : Nat)
    (hB : 1 ≤ B) (hN : ids ≠ []) :
    (buildBoundaryQueryDocuments ssql q false ids B).length = (ids.length + B - 1) / B ∧
    buildBoundaryQueryDocuments ssql q false ids B =
      (batchSelections q ssql 0 (batchBy ids B)).map
        (fun sels => "\x7b " ++ String.intercalate " " sels ++ " \x7d") ∧
    (batchSelections q ssql 0 (batchBy ids B)).flatten = selectionsOfBatch q ssql 0 ids := by
  refine ⟨?_, ?_, ?_⟩
  · simp only [buildBoundaryQueryDocuments, if_neg (by simp : ¬(false = true)),
      List.length_map, batchSelections_length]
    exact batchBy_length ids B hB hN
  · simp [buildBoundaryQueryDocuments]
  · rw [batchSelections_flatten, batchBy_flatten]

/-- Counterexample to C4 as stated: with zero ids the code emits one
empty document `{  }` (the Go loop always appends the final batch), while
`⌈0/B⌉ = 0` documents are claimed. -/
theorem c4_counterexample :
    buildBoundaryQueryDocuments "\x7b _id: id name \x7d" "getOwner" false [] 3
      = ["\x7b  \x7d"] ∧
    (buildBoundaryQueryDocuments "\x7b _id: id name \x7d" "getOwner" false [] 3).length ≠
      (([] : List String).length + 3 - 1) / 3 := by
  have h : buildBoundaryQueryDocuments "\x7b _id: id name \x7d" "getOwner" false [] 3
      = ["\x7b  \x7d"] := by
    rw [buildBoundaryQueryDocuments]
    rw [batchBy]
    simp [batchSelections, selectionsOfBatch]
    rfl
  exact ⟨h, by rw [h]; simp⟩

/-- Witness for C4 at the spec's scenario 4: ids `["1","2","3"]`, batch
size 2 — two documents, the second one's alias continuing at `_2`. -/
theorem c4_boundary_builder_witness :
    (buildBoundaryQueryDocuments "\x7b _id: id name \x7d" "getOwner" false
        ["1", "2", "3"] 2).length = (3 + 2 - 1) / 2 ∧
    (batchSelections "getOwner" "\x7b _id: id name \x7d" 0
        (batchBy ["1", "2", "3"] 2)).flatten =
      selectionsOfBatch "getOwner" "\x7b _id: id name \x7d" 0 ["1", "2", "3"] := by
  have h := c4_boundary_builder "\x7b _id: id name \x7d" "getOwner" ["1", "2", "3"] 2
    (by omega) (by simp)
  exact ⟨h.1, h.2.2⟩

theorem executeBoundaryQueryLoop_acc (respond : String → Except String GoMap)
    (docs : List String) (resps : List GoMap) (acc : List J)
    (h : List.Forall₂ (fun d fs => respond d = .ok fs) docs resps) :
    executeBoundaryQueryLoop respond docs acc =
      .ok (acc ++ (resps.map (fun fs => fs.map Prod.snd)).flatten) := by
  induction h generalizing acc with
  | nil => simp [executeBoundaryQueryLoop]
  | cons hd tl ih =>
    rw [executeBoundaryQueryLoop, hd]
    simp [ih]

/-- C6 (amended): for a non-array boundary step the normalizer returns,
for the documents in order, each document's top-level values in the Go
map's iteration order — an unspecified permutation of the ascending-alias
order, not necessarily that order itself (the code `range`s over the
response map without sorting).  Each document still contributes exactly
its values: when the response's entries are a permutation of the aliased
entries `_0 … _{n-1}`, the appended values are the corresponding
permutation of the alias-ordered values. -/
theorem c6_normalizer_order (respond : String → Except String GoMap)
    (docs : List String) (resps : List GoMap)
    (h : List.Forall₂ (fun d fs => respond d = .ok fs) docs resps) :
    executeBoundaryQuery respond docs false =
      .ok ((resps.map (fun fs => fs.map Prod.snd)).flatten) ∧
    (∀ (n : Nat) (v : Nat → J) (fs : GoMap),
      fs.Perm ((List.range n).map (fun i => (nodeAlias i, v i))) →
      (fs.map Prod.snd).Perm ((List.range n).map v)) := by
  constructor
  · simp only [executeBoundaryQuery, Bool.not_false, if_pos]
    simpa using executeBoundaryQueryLoop_acc respond docs resps [] h
  · intro n v fs hperm
    have h2 := hperm.map Prod.snd
    simpa [Function.comp] using h2

/-- The response mapping of the C6 counterexample: the same abstract Go
map `{_0: "a", _1: "b"}` with an iteration order that yields `_1` first —
Go map iteration order is unspecified, so this order is as legitimate as
the ascending one. -/
def c6respond : String → Except String GoMap :=
  fun _ => .ok [("_1", J.str "b"), ("_0", J.str "a")]

/-- Counterexample to C6 as stated: the normalizer emits the values in
map iteration order `["b", "a"]`, not in the ascending alias order
`["a", "b"]` the claim requires. -/
theorem c6_counterexample :
    executeBoundaryQuery c6respond ["d0"] false = .ok [J.str "b", J.str "a"] ∧
    executeBoundaryQuery c6respond ["d0"] false ≠ .ok [J.str "a", J.str "b"] := by
  have h : executeBoundaryQuery c6respond ["d0"] false = .ok [J.str "b", J.str "a"] := by
    simp [executeBoundaryQuery, executeBoundaryQueryLoop, c6respond]
  refine ⟨h, ?_⟩
  rw [h]
  simp

/-- Witness for C6 at a concrete input: one document whose response holds
`{_0: "a", _1: "b"}` in reversed iteration order. -/
theorem c6_normalizer_order_witness :
    executeBoundaryQuery c6respond ["d0"] false
      = .ok [J.str "b", J.str "a"] ∧
    ([("_1", J.str "b"), ("_0", J.str "a")].map Prod.snd).Perm
      ((List.range 2).map (fun i => if i = 0 then J.str "a" else J.str "b")) := by
  have h := c6_normalizer_order c6respond ["d0"] [[("_1", J.str "b"), ("_0", J.str "a")]]
    (List.Forall₂.cons rfl List.Forall₂.nil)
  constructor
  · rw [h.1]
    simp
  · refine h.2 2 (fun i => if i = 0 then J.str "a" else J.str "b")
      [("_1", J.str "b"), ("_0", J.str "a")] ?_
    simp [List.range_succ, nodeAlias]
    exact List.Perm.swap _ _ _

/-- C2 (amended): the Response Formatter fails on a field alias that is
absent from the mapping regardless of the field's declared nullability
(the code never consults the type), while a field that is present with a
null value serializes as `null`.  The original claim's `null` output for
an absent nullable field does not happen. -/
theorem c2_formatter_missing_field
    (al n : String) (typ : GType) (dirs : List String)
    (sub : Option (List Selection)) (rest : List Selection) (fs : GoMap)
    (hmissing : fs.find? (fun p => p.1 == al) = none) :
    formatResponseDataRec (Selection.field al n typ dirs sub :: rest) (J.obj fs)
        = .error ("could not find value in data for field " ++ al) ∧
    formatResponseDataRec [Selection.field "color" "color" (GType.named "String" true) [] none]
        (J.obj [("color", J.null)]) = .ok "\x7b\"color\":null\x7d" := by
  constructor
  · rw [formatResponseDataRec]
    simp [selectionFields, formatFieldsRec, hmissing]
  · rw [formatResponseDataRec]
    simp [selectionFields, formatFieldsRec, formatFieldValue, goLookup, jsonMarshal]
    rfl

/-- Counterexample to C2 as stated: a *nullable* absent field is a
formatter failure, not a `null` in the body. -/
theorem c2_counterexample :
    formatResponseDataRec
        [Selection.field "color" "color" (GType.named "String" false) [] none]
        (J.obj []) = .error "could not find value in data for field color" := by
  rw [formatResponseDataRec]
  simp [selectionFields, formatFieldsRec]

/-- Witness for C2 at a concrete input: an absent non-null field fails. -/
theorem c2_formatter_missing_field_witness :
    formatResponseDataRec
        [Selection.field "owner" "owner" (GType.named "Owner" true) [] none]
        (J.obj [("id", J.str "1")])
      = .error "could not find value in data for field owner" :=
  (c2_formatter_missing_field "owner" "owner" (GType.named "Owner" true) [] none []
    [("id", J.str "1")] (by simp)).1

/-- C1 (amended): when a field selection's aliased value is null (a Go
nil — an explicit JSON null or an absent key alike), the bubbler records
`field failed to resolve` at path + alias and signals bubble-up if the
field's type is non-null, and records nothing and signals nothing if the
type is nullable; but in *both* cases the Go `return` ends the whole
selection-set loop: the remaining sibling selections are not processed
(the result does not depend on `rest`), so two sibling null non-nullable
fields yield only the first error, and the mapping is left unchanged. -/
theorem c1_bubbler_null_field (schema : GSchema) (al n : String) (typ : GType)
    (dirs : List String) (sub : Option (List Selection)) (rest : List Selection)
    (fs : GoMap) (path : List PathElem) (errs : List GraphqlError) (b : Bool)
    (hnull : goLookup fs al = J.null) :
    bubbleFields schema (Selection.field al n typ dirs sub :: rest) fs path errs b =
      (if typ.isNonNull then
        .ok (errs ++ [⟨"field failed to resolve", path ++ [PathElem.name al]⟩], true, fs)
      else .ok (errs, b, fs)) := by
  rw [bubbleFields, hnull]

/-- Counterexample to C1 as stated: two sibling null non-nullable fields
`a` and `b` under the nullable field `w` produce a single recorded error
(for `a` only) — the bubbler's early return skips `b`. -/
theorem c1_counterexample :
    bubbleUpNullValuesInPlace ⟨[]⟩
        [Selection.field "w" "w" (GType.named "W" false) [] (some
          [Selection.field "a" "a" (GType.named "String" true) [] none,
           Selection.field "b" "b" (GType.named "String" true) [] none])]
        [("w", J.obj [("a", J.null), ("b", J.null)])]
      = .ok ([⟨"field failed to resolve", [PathElem.name "w", PathElem.name "a"]⟩],
             [("w", J.null)]) := by
  rw [bubbleUpNullValuesInPlace]
  rw [bubbleFields]
  simp [goLookup, bubbleRec, bubbleFields, GType.isNonNull, setKey]

/-- Witness for C1 at a concrete input: a null non-nullable field `a`
with a sibling `b` yields exactly the one error for `a`, the `true`
bubble signal, and the unchanged (empty) mapping. -/
theorem c1_bubbler_null_field_witness :
    bubbleFields ⟨[]⟩
        [Selection.field "a" "a" (GType.named "String" true) [] none,
         Selection.field "b" "b" (GType.named "String" true) [] none]
        [] [] [] false
      = .ok ([⟨"field failed to resolve", [PathElem.name "a"]⟩], true, []) := by
  have h := c1_bubbler_null_field ⟨[]⟩ "a" "a" (GType.named "String" true) [] none
    [Selection.field "b" "b" (GType.named "String" true) [] none]
    [] [] [] false (by simp [goLookup])
  simpa [GType.isNonNull] using h

theorem goLookupOk_not_mem (m : GoMap) (k : String) (h : k ∉ m.map Prod.fst) :
    goLookupOk m k = none := by
  induction m with
  | nil => rfl
  | cons p rest ih =>
    obtain ⟨k0, v0⟩ := p
    simp only [List.map_cons, List.mem_cons] at h
    push_neg at h
    simp [goLookupOk, List.find?, show (k0 == k) = false by
      simp [BEq.beq]; exact fun hc => h.1 hc.symm]
    simpa [goLookupOk] using ih h.2

theorem goLookupOk_setKey (m : GoMap) (k k' : String) (v : J) :
    goLookupOk (setKey m k v) k' = if k' = k then some v else goLookupOk m k' := by
  induction m with
  | nil =>
    by_cases h : k' = k
    · simp [setKey, goLookupOk, List.find?, h]
    · simp [setKey, goLookupOk, List.find?, h,
        show (k == k') = false by simp [BEq.beq]; exact fun hc => h hc.symm]
  | cons p rest ih =>
    obtain ⟨k0, v0⟩ := p
    by_cases h0 : k0 = k
    · subst h0
      by_cases h : k' = k0
      · simp [setKey, goLookupOk, List.find?, h]
      · simp [setKey, goLookupOk, List.find?, h,
          show (k0 == k') = false by simp [BEq.beq]; exact fun hc => h hc.symm]
    · by_cases h : k' = k0
      · subst h
        simp [setKey, h0, goLookupOk, List.find?]
      · simp only [setKey, if_neg h0]
        simp only [goLookupOk, List.find?,
          show (k0 == k') = false by simp [BEq.beq]; exact fun hc => h hc.symm]
        simpa [goLookupOk] using ih

theorem copyNonIDKeys_lookup (ent : GoMap) (acc : GoMap) (k : String)
    (hnodup : (ent.map Prod.fst).Nodup) :
    goLookupOk (copyNonIDKeys ent acc) k =
      if k = "_id" ∨ k = "id" then goLookupOk acc k
      else
        match goLookupOk ent k with
        | some v => some v
        | none => goLookupOk acc k := by
  induction ent generalizing acc with
  | nil =>
    by_cases hk : k = "_id" ∨ k = "id" <;>
      simp [copyNonIDKeys, goLookupOk, List.find?, hk]
  | cons p rest ih =>
    obtain ⟨k0, v0⟩ := p
    simp only [List.map_cons, List.nodup_cons] at hnodup
    have hrest := hnodup.2
    have hk0 : k0 ∉ rest.map Prod.fst := hnodup.1
    by_cases hid : k0 = "_id" ∨ k0 = "id"
    · rw [show copyNonIDKeys ((k0, v0) :: rest) acc = copyNonIDKeys rest acc by
        simp [copyNonIDKeys, hid]]
      rw [ih acc hrest]
      by_cases hk : k = "_id" ∨ k = "id"
      · simp [hk]
      · simp only [if_neg hk]
        have hkk0 : ¬ k = k0 := by
          rcases hid with h | h <;> rcases (not_or.mp hk) with ⟨h1, h2⟩ <;> subst h <;> tauto
        have : goLookupOk ((k0, v0) :: rest) k = goLookupOk rest k := by
          simp [goLookupOk, List.find?,
            show (k0 == k) = false by simp [BEq.beq]; exact fun hc => hkk0 hc.symm]
        rw [this]
    · rw [show copyNonIDKeys ((k0, v0) :: rest) acc
          = copyNonIDKeys rest (setKey acc k0 v0) by simp [copyNonIDKeys, hid]]
      rw [ih (setKey acc k0 v0) hrest]
      by_cases hk : k = "_id" ∨ k = "id"
      · simp only [if_pos hk]
        have hkk0 : ¬ k = k0 := by
          rcases hk with h | h <;> subst h <;> tauto
        rw [goLookupOk_setKey, if_neg hkk0]
      · simp only [if_neg hk]
        by_cases hkk0 : k = k0
        · subst hkk0
          have h1 : goLookupOk rest k = none := goLookupOk_not_mem rest k hk0
          have h2 : goLookupOk ((k, v0) :: rest) k = some v0 := by
            simp [goLookupOk, List.find?]
          rw [h1, h2, goLookupOk_setKey, if_pos rfl]
        · have h2 : goLookupOk ((k0, v0) :: rest) k = goLookupOk rest k := by
            simp [goLookupOk, List.find?,
              show (k0 == k) = false by simp [BEq.beq]; exact fun hc => hkk0 hc.symm]
          rw [h2, goLookupOk_setKey, if_neg hkk0]

theorem mergeBoundaryResults_skip (did : String) (ms : List GoMap) (acc : GoMap)
    (h : ∀ m ∈ ms, ∃ s, boundaryIDFromMap (J.obj m) = .ok s ∧ s ≠ did) :
    mergeBoundaryResults did ms acc = .ok acc := by
  induction ms generalizing acc with
  | nil => rfl
  | cons m rest ih =>
    obtain ⟨s, hs, hne⟩ := h m (by simp)
    rw [mergeBoundaryResults, hs]
    simp only [bind, Except.bind]
    rw [if_neg hne]
    exact ih acc (fun m' hm' => h m' (by simp [hm']))

theorem mergeBoundaryResults_unique (did : String) (pre post : List GoMap) (e : GoMap)
    (acc : GoMap)
    (hpre : ∀ m ∈ pre, ∃ s, boundaryIDFromMap (J.obj m) = .ok s ∧ s ≠ did)
    (hpost : ∀ m ∈ post, ∃ s, boundaryIDFromMap (J.obj m) = .ok s ∧ s ≠ did)
    (he : boundaryIDFromMap (J.obj e) = .ok did) :
    mergeBoundaryResults did (pre ++ e :: post) acc = .ok (copyNonIDKeys e acc) := by
  induction pre generalizing acc with
  | nil =>
    simp only [List.nil_append]
    rw [mergeBoundaryResults, he]
    simp only [bind, Except.bind]
    simp only [if_true]
    exact mergeBoundaryResults_skip did post _ hpost
  | cons m rest ih =>
    obtain ⟨s, hs, hne⟩ := hpre m (by simp)
    rw [List.cons_append, mergeBoundaryResults, hs]
    simp only [bind, Except.bind]
    rw [if_neg hne]
    exact ih acc (fun m' hm' => hpre m' (by simp [hm']))

theorem boundaryResultElems_map (ents : List GoMap) :
    boundaryResultElems (ents.map J.obj) = .ok ents := by
  induction ents with
  | nil => rfl
  | cons m rest ih =>
    rw [List.map_cons, boundaryResultElems, ih]
    rfl

/-- C5: at the splice point, when exactly one incoming entity's boundary
identifier equals the destination's identifier (the entities before and
after it all carry non-matching identifiers), the destination mapping
receives exactly that entity's keys: its non-identifier keys take the
entity's values, its other keys are untouched, and the identifier keys
`_id`/`id` themselves are never copied.  Identifier matching on both
sides goes through `boundaryIDFromMap`, which accepts the string under
`_id` or, failing that, under `id`. -/
theorem c5_merger_splice (ptr : GoMap) (pre post : List GoMap) (e : GoMap) (did : String)
    (hdst : boundaryIDFromMap (J.obj ptr) = .ok did)
    (hpre : ∀ m ∈ pre, ∃ s, boundaryIDFromMap (J.obj m) = .ok s ∧ s ≠ did)
    (hpost : ∀ m ∈ post, ∃ s, boundaryIDFromMap (J.obj m) = .ok s ∧ s ≠ did)
    (he : boundaryIDFromMap (J.obj e) = .ok did)
    (hnodup : (e.map Prod.fst).Nodup) :
    mergeExecutionResultsRec (J.arr ((pre ++ e :: post).map J.obj)) (J.obj ptr) []
        = .ok (J.obj (copyNonIDKeys e ptr)) ∧
    (∀ k, (k = "_id" ∨ k = "id") →
      goLookupOk (copyNonIDKeys e ptr) k = goLookupOk ptr k) ∧
    (∀ k v, ¬ (k = "_id" ∨ k = "id") → goLookupOk e k = some v →
      goLookupOk (copyNonIDKeys e ptr) k = some v) ∧
    (∀ k, ¬ (k = "_id" ∨ k = "id") → goLookupOk e k = none →
      goLookupOk (copyNonIDKeys e ptr) k = goLookupOk ptr k) ∧
    (∀ fs s, goLookup fs "_id" = J.str s → boundaryIDFromMap (J.obj fs) = .ok s) ∧
    (∀ fs s, (∀ t, goLookup fs "_id" ≠ J.str t) → goLookup fs "id" = J.str s →
      boundaryIDFromMap (J.obj fs) = .ok s) := by
  refine ⟨?_, ?_, ?_, ?_, ?_, ?_⟩
  · rw [mergeExecutionResultsRec]
    have hb : getBoundaryFieldResults (J.arr ((pre ++ e :: post).map J.obj))
        = .ok (pre ++ e :: post) := by
      rw [getBoundaryFieldResults]
      exact boundaryResultElems_map _
    rw [hb]
    simp only [bind, Except.bind]
    rw [hdst]
    simp only [mergeBoundaryResults_unique did pre post e ptr hpre hpost he]
    rfl
  · intro k hk
    rw [copyNonIDKeys_lookup e ptr k hnodup, if_pos hk]
  · intro k v hk hv
    rw [copyNonIDKeys_lookup e ptr k hnodup, if_neg hk, hv]
  · intro k hk hv
    rw [copyNonIDKeys_lookup e ptr k hnodup, if_neg hk, hv]
  · intro fs s h
    rw [boundaryIDFromMap, h]
  · intro fs s hno h
    cases hid : goLookup fs "_id" with
    | str t => exact absurd hid (hno t)
    | _ => rw [boundaryIDFromMap, hid, h]

/-- Witness for C5 at the spec's merge scenario: the destination owner
`{_id:"4"}` joined with entities `[{_id:"5",name:"B"},{_id:"4",name:"A"}]`
gains `name:"A"` while keeping `_id:"4"`. -/
theorem c5_merger_splice_witness :
    mergeExecutionResultsRec
        (J.arr [J.obj [("_id", J.str "5"), ("name", J.str "B")],
                J.obj [("_id", J.str "4"), ("name", J.str "A")]])
        (J.obj [("_id", J.str "4")]) []
      = .ok (J.obj (copyNonIDKeys [("_id", J.str "4"), ("name", J.str "A")]
          [("_id", J.str "4")])) ∧
    goLookupOk (copyNonIDKeys [("_id", J.str "4"), ("name", J.str "A")]
        [("_id", J.str "4")]) "_id" = some (J.str "4") ∧
    goLookupOk (copyNonIDKeys [("_id", J.str "4"), ("name", J.str "A")]
        [("_id", J.str "4")]) "name" = some (J.str "A") := by
  have h := c5_merger_splice [("_id", J.str "4")]
    [[("_id", J.str "5"), ("name", J.str "B")]] []
    [("_id", J.str "4"), ("name", J.str "A")] "4"
    (by rw [boundaryIDFromMap]; simp [goLookup])
    (by
      intro m hm
      simp only [List.mem_singleton] at hm
      subst hm
      exact ⟨"5", by rw [boundaryIDFromMap]; simp [goLookup], by simp⟩)
    (by intro m hm; simp at hm)
    (by rw [boundaryIDFromMap]; simp [goLookup])
    (by simp)
  refine ⟨?_, ?_, ?_⟩
  · have h1 := h.1
    simpa using h1
  · have h2 := h.2.1 "_id" (by simp)
    rw [h2]
    simp [goLookupOk, List.find?]
  · exact h.2.2.1 "name" (J.str "A") (by simp) (by simp [goLookupOk, List.find?])

theorem buildTypenameLoop_spec (parent : String) (ss : List Selection) (acc : GoMap) :
    ((∃ m, buildTypenameLoop parent ss acc = .ok m) ↔ typenameWellShaped ss = true) ∧
    (typenameWellShaped ss = true →
      buildTypenameLoop parent ss acc = .ok (typenameSpecMap parent ss acc)) := by
  induction parent, ss, acc using buildTypenameLoop.induct with
  | case1 parent acc =>
    simp [buildTypenameLoop, typenameWellShaped, typenameSpecMap]
  | case2 parent al nm typ dirs rest acc subSS h =>
    rw [buildTypenameLoop, if_pos h]
    rw [typenameWellShaped]
    simp [h]
  | case3 parent al nm typ dirs rest acc subSS h1 h2 =>
    rw [buildTypenameLoop, if_neg h1, if_pos (by simpa using h2)]
    rw [typenameWellShaped]
    simp [h1, show hasNamespaceDirective dirs = false by simpa using h2]
  | case4 parent al nm typ dirs rest acc subSS h1 h2 e hx ih1 =>
    have hsub : typenameWellShaped subSS = false := by
      cases hb : typenameWellShaped subSS
      · rfl
      · obtain ⟨m, hm⟩ := ih1.1.mpr hb
        rw [hx] at hm
        exact absurd hm (by simp)
    rw [buildTypenameLoop, if_neg h1, if_neg (by simpa using h2)]
    rw [typenameWellShaped]
    rw [hx]
    simp [hsub]
  | case5 parent al nm typ dirs rest acc subSS h1 h2 partData hx ih2 ih1 =>
    have hsub : typenameWellShaped subSS = true := ih2.1.mp ⟨partData, hx⟩
    have hdata : partData = typenameSpecMap typ.typeName subSS [] := by
      have h3 := ih2.2 hsub
      rw [hx] at h3
      simpa using h3
    rw [buildTypenameLoop, if_neg h1, if_neg (by simpa using h2)]
    rw [typenameWellShaped]
    rw [hx]
    constructor
    · simp only []
      rw [ih1.1]
      simp [hsub, h1, show hasNamespaceDirective dirs = true by simpa using h2]
    · intro hw
      simp only [Bool.and_eq_true] at hw
      simp only []
      rw [ih1.2 hw.2, typenameSpecMap, hdata]
  | case6 parent al nm typ dirs rest acc h =>
    rw [buildTypenameLoop, if_pos h]
    rw [typenameWellShaped]
    have hnm : (nm == "__typename") = false := by
      simp only [beq_eq_false_iff_ne, ne_eq]
      exact h
    simp [hnm]
  | case7 parent al nm typ dirs rest acc h ih1 =>
    have hnm : (nm == "__typename") = true := by
      simp only [beq_iff_eq]
      simpa using h
    rw [buildTypenameLoop, if_neg h]
    rw [typenameWellShaped]
    constructor
    · rw [ih1.1]
      simp [hnm]
    · intro hw
      simp only [Bool.and_eq_true] at hw
      rw [ih1.2 hw.2]
      rw [typenameSpecMap]
  | case8 parent cond subSS rest acc ih1 =>
    rw [buildTypenameLoop]
    rw [typenameWellShaped]
    exact ⟨ih1.1, fun hw => by rw [ih1.2 hw, typenameSpecMap]⟩
  | case9 parent cond subSS rest acc ih1 =>
    rw [buildTypenameLoop]
    rw [typenameWellShaped]
    exact ⟨ih1.1, fun hw => by rw [ih1.2 hw, typenameSpecMap]⟩

/-- C9: the Internal-Step Handler succeeds exactly on selection sets whose
(flattened) leaf fields are all `__typename` and whose non-leaf fields
each carry a sub-selection, a named type and the namespace directive
(`typenameWellShaped`, written from the spec); on success it returns the
mapping that binds each `__typename` alias to its enclosing parent type's
name, recursing into non-leaf fields with the field's declared named type
(`typenameSpecMap`, written from the spec); every other shape is an
error. -/
theorem c9_internal_step (ss : List Selection) (parent : String) :
    ((∃ m, BuildTypenameResponseMap ss parent = .ok m) ↔ typenameWellShaped ss = true) ∧
    (typenameWellShaped ss = true →
      BuildTypenameResponseMap ss parent = .ok (typenameSpecMap parent ss [])) := by
  simpa [BuildTypenameResponseMap] using buildTypenameLoop_spec parent ss []

/-- Witness for C9 at a concrete input: a namespace field wrapping a
`__typename` leaf, with an aliased `__typename` leaf beside it. -/
theorem c9_internal_step_witness :
    BuildTypenameResponseMap
        [Selection.field "ns" "ns" (GType.named "NS" true) ["@namespace"]
          (some [Selection.field "__typename" "__typename" (GType.named "String" false) [] none]),
         Selection.field "t" "__typename" (GType.named "String" false) [] none]
        "Query"
      = .ok [("ns", J.obj [("__typename", J.str "NS")]), ("t", J.str "Query")] := by
  have h := (c9_internal_step
    [Selection.field "ns" "ns" (GType.named "NS" true) ["@namespace"]
      (some [Selection.field "__typename" "__typename" (GType.named "String" false) [] none]),
     Selection.field "t" "__typename" (GType.named "String" false) [] none]
    "Query").2
    (by simp [typenameWellShaped, hasNamespaceDirective, GType.namedType])
  rw [h]
  simp [typenameSpecMap, setKey, GType.typeName]

theorem OnlyNulled.trans {a b c : J} (d1 : OnlyNulled a b) (d2 : OnlyNulled b c) :
    OnlyNulled a c := by
  induction d2 generalizing a with
  | refl => exact d1
  | toNull => exact OnlyNulled.toNull a
  | objNil => exact d1
  | objCons k v w fs gs hvw hfs ih1 ih2 =>
    cases d1 with
    | refl => exact OnlyNulled.objCons k v w fs gs hvw hfs
    | objCons _ u _ fs0 _ h1 h2 =>
      exact OnlyNulled.objCons k u w fs0 gs (ih1 h1) (ih2 h2)
  | arrNil => exact d1
  | arrCons x y xs ys hxy hxs ih1 ih2 =>
    cases d1 with
    | refl => exact OnlyNulled.arrCons x y xs ys hxy hxs
    | arrCons x0 _ xs0 _ h1 h2 =>
      exact OnlyNulled.arrCons x0 y xs0 ys (ih1 h1) (ih2 h2)

theorem OnlyNulled.setKey_of {fs : GoMap} {k : String} {w : J}
    (hv : goLookup fs k ≠ J.null) (hw : OnlyNulled (goLookup fs k) w) :
    OnlyNulled (J.obj fs) (J.obj (setKey fs k w)) := by
  induction fs with
  | nil => exact absurd rfl hv
  | cons p rest ih =>
    obtain ⟨k0, v0⟩ := p
    by_cases h : k0 = k
    · subst h
      have hlook : goLookup ((k0, v0) :: rest) k0 = v0 := by
        simp [goLookup, List.find?]
      rw [hlook] at hw
      rw [show setKey ((k0, v0) :: rest) k0 w = (k0, w) :: rest by simp [setKey]]
      exact OnlyNulled.objCons k0 v0 w rest rest hw (OnlyNulled.refl _)
    · have hlook : goLookup ((k0, v0) :: rest) k = goLookup rest k := by
        simp [goLookup, List.find?,
          show (k0 == k) = false by simp [BEq.beq]; exact h]
      rw [hlook] at hv hw
      rw [show setKey ((k0, v0) :: rest) k w = (k0, v0) :: setKey rest k w by
        simp [setKey, h]]
      have hrest := ih hv hw
      exact OnlyNulled.objCons k0 v0 v0 rest (setKey rest k w) (OnlyNulled.refl _) hrest

theorem setKey_self {fs : GoMap} {k : String} {v : J}
    (hl : goLookup fs k = v) (hv : v ≠ J.null) : setKey fs k v = fs := by
  induction fs with
  | nil => exact absurd hl.symm hv
  | cons p rest ih =>
    obtain ⟨k0, v0⟩ := p
    by_cases h : k0 = k
    · subst h
      have : goLookup ((k0, v0) :: rest) k0 = v0 := by simp [goLookup, List.find?]
      rw [this] at hl
      simp [setKey, hl]
    · have hlook : goLookup ((k0, v0) :: rest) k = goLookup rest k := by
        simp [goLookup, List.find?,
          show (k0 == k) = false by simp [BEq.beq]; exact h]
      rw [hlook] at hl
      simp [setKey, h, ih hl]

theorem bubbleFields_field_some (schema : GSchema) (al nm : String) (typ : GType)
    (dirs : List String) (subSS rest : List Selection) (fs : GoMap)
    (path : List PathElem) (errs : List GraphqlError) (bu : Bool)
    (h : goLookup fs al ≠ J.null) :
    bubbleFields schema (Selection.field al nm typ dirs (some subSS) :: rest) fs path errs bu =
      match bubbleRec schema (some typ) subSS (goLookup fs al) (path ++ [PathElem.name al]) with
      | .error e => .error e
      | .ok (lowerErrs, lowerBubbleUp, value') =>
        if lowerBubbleUp then
          if typ.isNonNull then
            bubbleFields schema rest (setKey fs al value') path (errs ++ lowerErrs) true
          else
            bubbleFields schema rest (setKey fs al J.null) path (errs ++ lowerErrs) bu
        else
          bubbleFields schema rest (setKey fs al value') path (errs ++ lowerErrs) bu := by
  cases hv : goLookup fs al
  case null => exact absurd hv h
  all_goals rw [bubbleFields, hv]

theorem bubbleFields_field_none (schema : GSchema) (al nm : String) (typ : GType)
    (dirs : List String) (rest : List Selection) (fs : GoMap)
    (path : List PathElem) (errs : List GraphqlError) (bu : Bool)
    (h : goLookup fs al ≠ J.null) :
    bubbleFields schema (Selection.field al nm typ dirs none :: rest) fs path errs bu =
      bubbleFields schema rest fs path errs bu := by
  cases hv : goLookup fs al
  case null => exact absurd hv h
  all_goals rw [bubbleFields, hv]

theorem bubbleFields_spread (schema : GSchema) (cond : String)
    (subSS rest : List Selection) (fs : GoMap) (path : List PathElem)
    (errs : List GraphqlError) (bu : Bool) (s : String)
    (h : goLookup fs "__typename" = J.str s) :
    bubbleFields schema (Selection.fragmentSpread cond subSS :: rest) fs path errs bu =
      if s ≠ cond ∧ ¬ implementsInterface schema s cond then
        bubbleFields schema rest fs path errs bu
      else
        match bubbleFields schema subSS fs path [] false with
        | .error e => .error e
        | .ok (lowerErrs, lowerBubbleUp, fs') =>
          bubbleFields schema rest fs' path (errs ++ lowerErrs) lowerBubbleUp := by
  rw [bubbleFields, h]

theorem bubbleFields_inline (schema : GSchema) (cond : String)
    (subSS rest : List Selection) (fs : GoMap) (path : List PathElem)
    (errs : List GraphqlError) (bu : Bool) (s : String)
    (h : goLookup fs "__typename" = J.str s) :
    bubbleFields schema (Selection.inlineFragment cond subSS :: rest) fs path errs bu =
      if s ≠ cond ∧ ¬ implementsInterface schema s cond then
        bubbleFields schema rest fs path errs bu
      else
        match bubbleFields schema subSS fs path [] false with
        | .error e => .error e
        | .ok (lowerErrs, lowerBubbleUp, fs') =>
          bubbleFields schema rest fs' path (errs ++ lowerErrs) lowerBubbleUp := by
  rw [bubbleFields, h]

theorem bubbleRecProps (schema : GSchema) :
    ∀ (ct : Option GType) (ss : List Selection) (j : J) (path : List PathElem),
      ∀ e b j', bubbleRec schema ct ss j path = .ok (e, b, j') →
        OnlyNulled j j' ∧ (e = [] → j' = j ∧ b = false) := by
  refine bubbleRec.induct schema
    (fun ct ss j path => ∀ e b j', bubbleRec schema ct ss j path = .ok (e, b, j') →
      OnlyNulled j j' ∧ (e = [] → j' = j ∧ b = false))
    (fun ct ss xs path i errs bu => ∀ e' b' ys,
      bubbleElems schema ct ss xs path i errs bu = .ok (e', b', ys) →
      OnlyNulled (J.arr xs) (J.arr ys) ∧
      ∃ d, e' = errs ++ d ∧ (d = [] → ys = xs ∧ b' = bu))
    (fun ss fs path errs bu => ∀ e' b' fs',
      bubbleFields schema ss fs path errs bu = .ok (e', b', fs') →
      OnlyNulled (J.obj fs) (J.obj fs') ∧
      ∃ d, e' = errs ++ d ∧ (d = [] → bu = false → fs' = fs ∧ b' = false))
    ?_ ?_ ?_ ?_ ?_ ?_ ?_ ?_ ?_ ?_ ?_ ?_ ?_ ?_ ?_ ?_ ?_ ?_ ?_ ?_ ?_ ?_ ?_ ?_ ?_ ?_
  -- P1: bubbleRec on a mapping, bubbleFields errors
  · intro ct ss path fs e hferr ih e0 b0 j' hok
    rw [bubbleRec, hferr] at hok
    simp at hok
  -- P2: bubbleRec on a mapping, bubbleFields succeeds
  · intro ct ss path fs errs0 b0 fs0 hfok ih e0 b0' j' hok
    rw [bubbleRec, hfok] at hok
    simp only [Except.ok.injEq, Prod.mk.injEq] at hok
    obtain ⟨he, hb, hj⟩ := hok
    subst he; subst hb; subst hj
    obtain ⟨hON, d, hd, himp⟩ := ih errs0 b0 fs0 hfok
    refine ⟨hON, fun h0 => ?_⟩
    have hd0 : d = [] := by simpa [h0] using hd.symm
    obtain ⟨hfs, hb0⟩ := himp hd0 rfl
    exact ⟨by rw [hfs], hb0⟩
  -- P3: bubbleRec on a sequence, bubbleElems errors
  · intro ct ss path xs e helerr ih e0 b0 j' hok
    rw [bubbleRec, helerr] at hok
    simp at hok
  -- P4: bubbleRec on a sequence, bubbleElems succeeds
  · intro ct ss path xs errs0 b0 xs0 helok ih e0 b0' j' hok
    rw [bubbleRec, helok] at hok
    simp only [Except.ok.injEq, Prod.mk.injEq] at hok
    obtain ⟨he, hb, hj⟩ := hok
    subst he; subst hb; subst hj
    obtain ⟨hON, d, hd, himp⟩ := ih errs0 b0 xs0 helok
    refine ⟨hON, fun h0 => ?_⟩
    have hd0 : d = [] := by simpa [h0] using hd.symm
    obtain ⟨hxs, hb0⟩ := himp hd0
    exact ⟨by rw [hxs], hb0⟩
  -- P5: bubbleRec on any other value is the type-switch error
  · intro ct ss j path hobj harr e0 b0 j' hok
    cases j with
    | obj fs => exact ((hobj fs) rfl).elim
    | arr xs => exact ((harr xs) rfl).elim
    | null => rw [bubbleRec] at hok <;> simp_all
    | bool b => rw [bubbleRec] at hok <;> simp_all
    | num n => rw [bubbleRec] at hok <;> simp_all
    | str s => rw [bubbleRec] at hok <;> simp_all
  -- P6: bubbleElems on the empty sequence
  · intro ct ss path i errs bu e0 b0 ys hok
    rw [bubbleElems] at hok
    simp only [Except.ok.injEq, Prod.mk.injEq] at hok
    obtain ⟨he, hb, hy⟩ := hok
    subst he; subst hb; subst hy
    exact ⟨OnlyNulled.arrNil, [], by simp, fun _ => ⟨rfl, rfl⟩⟩
  -- P7: bubbleElems, head recursion errors
  · intro ct ss path i errs bu x tl e hrecerr ih e0 b0 ys hok
    rw [bubbleElems, hrecerr] at hok
    simp at hok
  -- P8: bubbleElems, step computation errors (nil-type panic)
  · intro ct ss path i errs bu x tl lowerErrs lowerB value' hrec step e hstep ih e0 b0 ys hok
    unfold_let step at hstep
    rw [bubbleElems, hrec] at hok
    by_cases hlb : lowerB = true
    · simp only [if_pos hlb] at hok
      cases hct : ct with
      | none => subst hct; simp at hok
      | some t =>
        subst hct
        cases ht : t with
        | named nm2 nn => subst ht; simp at hok
        | list elem nn =>
          subst ht
          rw [dif_pos hlb] at hstep
          by_cases hnn : elem.isNonNull = true
          · simp only [dif_pos hnn] at hstep
            simp at hstep
          · simp only [dif_neg hnn] at hstep
            simp at hstep
    · rw [dif_neg hlb] at hstep
      simp at hstep
  -- P9: bubbleElems, tail recursion errors
  · intro ct ss path i errs bu x tl lowerErrs lowerB value' hrec step b' y hstep e htailerr ih1 ih2 e0 b0 ys hok
    unfold_let step at hstep
    rw [bubbleElems, hrec] at hok
    by_cases hlb : lowerB = true
    · simp only [if_pos hlb] at hok
      cases hct : ct with
      | none =>
        subst hct
        rw [dif_pos hlb] at hstep
        simp at hstep
      | some t =>
        subst hct
        cases ht : t with
        | named nm2 nn =>
          subst ht
          rw [dif_pos hlb] at hstep
          simp at hstep
        | list elem nn =>
          subst ht
          rw [dif_pos hlb] at hstep
          by_cases hnn : elem.isNonNull = true
          · simp only [dif_pos hnn, Except.ok.injEq, Prod.mk.injEq] at hstep
            obtain ⟨hb', hy⟩ := hstep
            subst hb'
            simp only [if_pos hnn, htailerr] at hok
            simp at hok
          · simp only [dif_neg hnn, Except.ok.injEq, Prod.mk.injEq] at hstep
            obtain ⟨hb', hy⟩ := hstep
            subst hb'
            simp only [if_neg hnn, htailerr] at hok
            simp at hok
    · rw [dif_neg hlb] at hstep
      simp only [Except.ok.injEq, Prod.mk.injEq] at hstep
      obtain ⟨hb', hy⟩ := hstep
      subst hb'
      simp only [if_neg hlb, htailerr] at hok
      simp at hok
  -- P10: bubbleElems, head and tail succeed
  · intro ct ss path i errs bu x tl lowerErrs lowerB value' hrec step b' y hstep errs1 btl xs' htail ih1 ih2 e0 b0 ys hok
    unfold_let step at hstep
    rw [bubbleElems, hrec] at hok
    obtain ⟨hONtl, d2, hd2, himp2⟩ := ih2 errs1 btl xs' htail
    have hclose : OnlyNulled x y ∧ (lowerErrs = [] → y = x ∧ b' = bu) ∧
        .ok (e0, b0, ys) = (Except.ok (errs1, btl, y :: xs') :
          Except String (List GraphqlError × Bool × List J)) := by
      by_cases hlb : lowerB = true
      · simp only [if_pos hlb] at hok
        cases hct : ct with
        | none =>
          subst hct
          rw [dif_pos hlb] at hstep
          simp at hstep
        | some t =>
          subst hct
          cases ht : t with
          | named nm2 nn =>
            subst ht
            rw [dif_pos hlb] at hstep
            simp at hstep
          | list elem nn =>
            subst ht
            rw [dif_pos hlb] at hstep
            by_cases hnn : elem.isNonNull = true
            · simp only [dif_pos hnn, Except.ok.injEq, Prod.mk.injEq] at hstep
              obtain ⟨hb', hy⟩ := hstep
              subst hb'; subst hy
              simp only [if_pos hnn, htail] at hok
              refine ⟨(ih1 lowerErrs lowerB value' hrec).1, ?_, hok.symm⟩
              intro hle
              obtain ⟨_, hlbf⟩ := (ih1 lowerErrs lowerB value' hrec).2 hle
              rw [hlbf] at hlb
              simp at hlb
            · simp only [dif_neg hnn, Except.ok.injEq, Prod.mk.injEq] at hstep
              obtain ⟨hb', hy⟩ := hstep
              subst hb'; subst hy
              simp only [if_neg hnn, htail] at hok
              refine ⟨OnlyNulled.toNull x, ?_, hok.symm⟩
              intro hle
              obtain ⟨_, hlbf⟩ := (ih1 lowerErrs lowerB value' hrec).2 hle
              rw [hlbf] at hlb
              simp at hlb
      · rw [dif_neg hlb] at hstep
        simp only [Except.ok.injEq, Prod.mk.injEq] at hstep
        obtain ⟨hb', hy⟩ := hstep
        subst hb'; subst hy
        simp only [if_neg hlb, htail] at hok
        refine ⟨(ih1 lowerErrs lowerB value' hrec).1, ?_, hok.symm⟩
        intro hle
        exact ⟨((ih1 lowerErrs lowerB value' hrec).2 hle).1, rfl⟩
    obtain ⟨hONx, hnochange, heq⟩ := hclose
    simp only [Except.ok.injEq, Prod.mk.injEq] at heq
    obtain ⟨he, hb, hy⟩ := heq
    subst he; subst hb; subst hy
    refine ⟨OnlyNulled.arrCons x y tl xs' hONx hONtl, lowerErrs ++ d2, by rw [hd2]; simp, ?_⟩
    intro hd0
    have hle : lowerErrs = [] := by
      cases hl : lowerErrs with
      | nil => rfl
      | cons a l => rw [hl] at hd0; simp at hd0
    have hd2e : d2 = [] := by
      rw [hle] at hd0
      simpa using hd0
    obtain ⟨hyx, hb'bu⟩ := hnochange hle
    obtain ⟨hxs, hbtl⟩ := himp2 hd2e
    constructor
    · rw [hxs, hyx]
    · rw [hbtl, hb'bu]
  -- P11: bubbleFields on the empty selection set
  · intro fs path errs bu e0 b0 fs' hok
    rw [bubbleFields] at hok
    simp only [Except.ok.injEq, Prod.mk.injEq] at hok
    obtain ⟨he, hb, hf⟩ := hok
    subst he; subst hb; subst hf
    exact ⟨OnlyNulled.refl _, [], by simp, fun _ hb0 => ⟨rfl, hb0⟩⟩
  -- P12: null field of non-null type: record the error, bubble, early return
  · intro fs path errs bu al nm typ dirs sub rest hnull htyp e0 b0 fs' hok
    rw [bubbleFields, hnull, if_pos htyp] at hok
    simp only [Except.ok.injEq, Prod.mk.injEq] at hok
    obtain ⟨he, hb, hf⟩ := hok
    subst he; subst hb; subst hf
    exact ⟨OnlyNulled.refl _,
      [⟨"field failed to resolve", path ++ [PathElem.name al]⟩], rfl,
      fun hd => by simp at hd⟩
  -- P13: null field of nullable type: no error, no bubble, early return
  · intro fs path errs bu al nm typ dirs sub rest hnull htyp e0 b0 fs' hok
    rw [bubbleFields, hnull, if_neg htyp] at hok
    simp only [Except.ok.injEq, Prod.mk.injEq] at hok
    obtain ⟨he, hb, hf⟩ := hok
    subst he; subst hb; subst hf
    exact ⟨OnlyNulled.refl _, [], by simp, fun _ hb0 => ⟨rfl, hb0⟩⟩
  -- P14: field with sub-selection, lower recursion errors
  · intro fs path errs bu al nm typ dirs rest subSS e hnn hrecerr ih e0 b0 fs' hok
    rw [bubbleFields_field_some schema al nm typ dirs subSS rest fs path errs bu
      (fun hc => hnn hc), hrecerr] at hok
    simp at hok
  -- P15: field bubbles and is non-null: keep value, propagate bubble
  · intro fs path errs bu al nm typ dirs rest subSS lowerErrs value' htyp hnn hrec ih1 ih2 e0 b0 fs'' hok
    rw [bubbleFields_field_some schema al nm typ dirs subSS rest fs path errs bu
      (fun hc => hnn hc), hrec] at hok
    simp only [if_true, if_pos htyp] at hok
    obtain ⟨hONrest, d2, hd2, himp2⟩ := ih2 e0 b0 fs'' hok
    have hONval : OnlyNulled (goLookup fs al) value' := (ih1 lowerErrs true value' hrec).1
    refine ⟨OnlyNulled.trans (OnlyNulled.setKey_of (fun hc => hnn hc) hONval) hONrest,
      lowerErrs ++ d2, by rw [hd2]; simp, ?_⟩
    intro hd0 hbu
    have hle : lowerErrs = [] := by
      cases hl : lowerErrs with
      | nil => rfl
      | cons a l => rw [hl] at hd0; simp at hd0
    have := (ih1 lowerErrs true value' hrec).2 hle
    exact absurd this.2 (by simp)
  -- P16: field bubbles and is nullable: overwrite with null, absorb bubble
  · intro fs path errs bu al nm typ dirs rest subSS lowerErrs value' htyp hnn hrec ih1 ih2 e0 b0 fs'' hok
    rw [bubbleFields_field_some schema al nm typ dirs subSS rest fs path errs bu
      (fun hc => hnn hc), hrec] at hok
    simp only [if_true, if_neg htyp] at hok
    obtain ⟨hONrest, d2, hd2, himp2⟩ := ih2 e0 b0 fs'' hok
    refine ⟨OnlyNulled.trans
      (OnlyNulled.setKey_of (fun hc => hnn hc) (OnlyNulled.toNull _)) hONrest,
      lowerErrs ++ d2, by rw [hd2]; simp, ?_⟩
    intro hd0 hbu
    have hle : lowerErrs = [] := by
      cases hl : lowerErrs with
      | nil => rfl
      | cons a l => rw [hl] at hd0; simp at hd0
    have := (ih1 lowerErrs true value' hrec).2 hle
    exact absurd this.2 (by simp)
  -- P17: field does not bubble: keep the recursion's value
  · intro fs path errs bu al nm typ dirs rest subSS lowerErrs lowerB value' hlb hnn hrec ih1 ih2 e0 b0 fs'' hok
    rw [bubbleFields_field_some schema al nm typ dirs subSS rest fs path errs bu
      (fun hc => hnn hc), hrec] at hok
    simp only [if_neg hlb] at hok
    obtain ⟨hONrest, d2, hd2, himp2⟩ := ih2 e0 b0 fs'' hok
    have hONval : OnlyNulled (goLookup fs al) value' := (ih1 lowerErrs lowerB value' hrec).1
    refine ⟨OnlyNulled.trans (OnlyNulled.setKey_of (fun hc => hnn hc) hONval) hONrest,
      lowerErrs ++ d2, by rw [hd2]; simp, ?_⟩
    intro hd0 hbu
    have hle : lowerErrs = [] := by
      cases hl : lowerErrs with
      | nil => rfl
      | cons a l => rw [hl] at hd0; simp at hd0
    have hd2e : d2 = [] := by
      rw [hle] at hd0
      simpa using hd0
    obtain ⟨hval, _⟩ := (ih1 lowerErrs lowerB value' hrec).2 hle
    have hset : setKey fs al value' = fs := by
      rw [hval]
      exact setKey_self rfl (fun hc => hnn hc)
    rw [hset] at himp2
    exact himp2 hd2e hbu
  -- P18: field without sub-selection: continue with the rest
  · intro fs path errs bu al nm typ dirs rest hnn ih e0 b0 fs' hok
    rw [bubbleFields_field_none schema al nm typ dirs rest fs path errs bu
      (fun hc => hnn hc)] at hok
    exact ih e0 b0 fs' hok
  -- P19: fragment spread whose condition does not match: skip
  · intro fs path errs bu cond subSS rest s htype hcond ih e0 b0 fs' hok
    rw [bubbleFields_spread schema cond subSS rest fs path errs bu s htype,
      if_pos hcond] at hok
    exact ih e0 b0 fs' hok
  -- P20: fragment spread, inner selection errors
  · intro fs path errs bu cond subSS rest s htype hcond e hinerr ih e0 b0 fs' hok
    rw [bubbleFields_spread schema cond subSS rest fs path errs bu s htype,
      if_neg hcond, hinerr] at hok
    simp at hok
  -- P21: fragment spread, inner selection succeeds
  · intro fs path errs bu cond subSS rest s htype hcond errs1 b1 fs1 hin ihsub ihrest e0 b0 fs'' hok
    rw [bubbleFields_spread schema cond subSS rest fs path errs bu s htype,
      if_neg hcond, hin] at hok
    obtain ⟨hONsub, d1, hd1, himp1⟩ := ihsub errs1 b1 fs1 hin
    obtain ⟨hONrest, d2, hd2, himp2⟩ := ihrest e0 b0 fs'' hok
    refine ⟨OnlyNulled.trans hONsub hONrest, errs1 ++ d2, by rw [hd2]; simp, ?_⟩
    intro hd0 hbu
    have he1 : errs1 = [] := by
      cases hl : errs1 with
      | nil => rfl
      | cons a l => rw [hl] at hd0; simp at hd0
    have hd2e : d2 = [] := by
      rw [he1] at hd0
      simpa using hd0
    have hd1e : d1 = [] := by simpa [he1] using hd1.symm
    obtain ⟨hfs1, hb1⟩ := himp1 hd1e rfl
    rw [hfs1, hb1] at himp2
    exact himp2 hd2e rfl
  -- P22: fragment spread without a string __typename: error
  · intro fs path errs bu cond subSS rest hno e0 b0 fs' hok
    cases ht : goLookup fs "__typename" <;> rw [bubbleFields, ht] at hok
    case str s => exact ((hno s) ht).elim
    all_goals simp at hok
  -- P23: inline fragment whose condition does not match: skip
  · intro fs path errs bu cond subSS rest s htype hcond ih e0 b0 fs' hok
    rw [bubbleFields_inline schema cond subSS rest fs path errs bu s htype,
      if_pos hcond] at hok
    exact ih e0 b0 fs' hok
  -- P24: inline fragment, inner selection errors
  · intro fs path errs bu cond subSS rest s htype hcond e hinerr ih e0 b0 fs' hok
    rw [bubbleFields_inline schema cond subSS rest fs path errs bu s htype,
      if_neg hcond, hinerr] at hok
    simp at hok
  -- P25: inline fragment, inner selection succeeds
  · intro fs path errs bu cond subSS rest s htype hcond errs1 b1 fs1 hin ihsub ihrest e0 b0 fs'' hok
    rw [bubbleFields_inline schema cond subSS rest fs path errs bu s htype,
      if_neg hcond, hin] at hok
    obtain ⟨hONsub, d1, hd1, himp1⟩ := ihsub errs1 b1 fs1 hin
    obtain ⟨hONrest, d2, hd2, himp2⟩ := ihrest e0 b0 fs'' hok
    refine ⟨OnlyNulled.trans hONsub hONrest, errs1 ++ d2, by rw [hd2]; simp, ?_⟩
    intro hd0 hbu
    have he1 : errs1 = [] := by
      cases hl : errs1 with
      | nil => rfl
      | cons a l => rw [hl] at hd0; simp at hd0
    have hd2e : d2 = [] := by
      rw [he1] at hd0
      simpa using hd0
    have hd1e : d1 = [] := by simpa [he1] using hd1.symm
    obtain ⟨hfs1, hb1⟩ := himp1 hd1e rfl
    rw [hfs1, hb1] at himp2
    exact himp2 hd2e rfl
  -- P26: inline fragment without a string __typename: error
  · intro fs path errs bu cond subSS rest hno e0 b0 fs' hok
    cases ht : goLookup fs "__typename" <;> rw [bubbleFields, ht] at hok
    case str s => exact ((hno s) ht).elim
    all_goals simp at hok

/-- C10: a successful run of the bubbler's recursion only ever overwrites
existing mapping values or sequence elements with null — it never adds or
removes keys, never changes a sequence's length, and never writes any
non-null value, so the tree's key sets and list lengths are preserved
(`OnlyNulled`). -/
theorem c10_bubbler_frame (schema : GSchema) (ct : Option GType) (ss : List Selection)
    (j : J) (path : List PathElem) (e : List GraphqlError) (b : Bool) (j' : J)
    (h : bubbleRec schema ct ss j path = .ok (e, b, j')) : OnlyNulled j j' :=
  (bubbleRecProps schema ct ss j path e b j' h).1

/-- Witness for C10 at a concrete input: nulling the nullable field `w`
(whose non-null child `a` is null) relates input and output by
`OnlyNulled`. -/
theorem c10_bubbler_frame_witness :
    OnlyNulled (J.obj [("w", J.obj [("a", J.null), ("b", J.null)])])
      (J.obj [("w", J.null)]) := by
  refine c10_bubbler_frame ⟨[]⟩ none
    [Selection.field "w" "w" (GType.named "W" false) [] (some
      [Selection.field "a" "a" (GType.named "String" true) [] none,
       Selection.field "b" "b" (GType.named "String" true) [] none])]
    (J.obj [("w", J.obj [("a", J.null), ("b", J.null)])]) []
    [⟨"field failed to resolve", [PathElem.name "w", PathElem.name "a"]⟩] false
    (J.obj [("w", J.null)]) ?_
  rw [bubbleRec]
  rw [bubbleFields]
  simp [goLookup, bubbleRec, bubbleFields, GType.isNonNull, setKey]

/-- C8 (amended): when the Null Bubbler succeeds with an empty error
list, the tree is unchanged, and a second run on the output returns the
same empty error list and unchanged tree.  Idempotence as originally
stated fails: when the first run wrote a null into a list element, the
second run aborts with the recursion's unexpected-type error on that
null element. -/
theorem c8_bubbler_no_errors_stable (schema : GSchema) (ss : List Selection)
    (fs fs' : GoMap)
    (h : bubbleUpNullValuesInPlace schema ss fs = .ok ([], fs')) :
    fs' = fs ∧ bubbleUpNullValuesInPlace schema ss fs' = .ok ([], fs') := by
  rw [bubbleUpNullValuesInPlace] at h
  cases hbf : bubbleFields schema ss fs [] [] false with
  | error e =>
    rw [hbf] at h
    simp at h
  | ok trip =>
    obtain ⟨errs0, b0, fs0⟩ := trip
    rw [hbf] at h
    by_cases hb : b0 = true
    · simp only [if_pos hb] at h
      simp at h
    · simp only [if_neg hb] at h
      simp only [Except.ok.injEq, Prod.mk.injEq] at h
      obtain ⟨he, hf⟩ := h
      subst he; subst hf
      have hrec : bubbleRec schema none ss (J.obj fs) [] = .ok ([], b0, J.obj fs0) := by
        rw [bubbleRec, hbf]
      have hprops := (bubbleRecProps schema none ss (J.obj fs) [] [] b0 (J.obj fs0) hrec).2 rfl
      have hfs : fs0 = fs := by
        have := hprops.1
        simpa using this
      subst hfs
      refine ⟨rfl, ?_⟩
      rw [bubbleUpNullValuesInPlace, hbf]
      simp only [if_neg hb]

/-- Counterexample to C8 as stated: the first run succeeds (one error,
list element nulled); the second run on the output tree fails with the
recursion's unexpected-type error when it reaches the null element. -/
theorem c8_counterexample :
    bubbleUpNullValuesInPlace ⟨[]⟩
        [Selection.field "gizmos" "gizmos"
          (GType.list (GType.named "Gizmo" false) false) [] (some
            [Selection.field "color" "color" (GType.named "String" true) [] none])]
        [("gizmos", J.arr [J.obj [("color", J.null)]])]
      = .ok ([⟨"field failed to resolve",
              [PathElem.name "gizmos", PathElem.idx 0, PathElem.name "color"]⟩],
             [("gizmos", J.arr [J.null])]) ∧
    bubbleUpNullValuesInPlace ⟨[]⟩
        [Selection.field "gizmos" "gizmos"
          (GType.list (GType.named "Gizmo" false) false) [] (some
            [Selection.field "color" "color" (GType.named "String" true) [] none])]
        [("gizmos", J.arr [J.null])]
      = .error "bubbleUpNullValuesInPlaceRec: unxpected result type" := by
  constructor
  · rw [bubbleUpNullValuesInPlace]
    rw [bubbleFields]
    simp [goLookup, bubbleRec, bubbleFields, bubbleElems, GType.isNonNull, setKey]
  · rw [bubbleUpNullValuesInPlace]
    rw [bubbleFields]
    simp [goLookup, bubbleRec, bubbleFields, bubbleElems, GType.isNonNull, setKey]

/-- Witness for C8 at a concrete input: a run with no nulls returns no
errors and the unchanged tree, and the second run agrees. -/
theorem c8_bubbler_no_errors_stable_witness :
    ([("id", J.str "1")] : GoMap) = [("id", J.str "1")] ∧
    bubbleUpNullValuesInPlace ⟨[]⟩
        [Selection.field "id" "id" (GType.named "ID" true) [] none]
        [("id", J.str "1")]
      = .ok ([], [("id", J.str "1")]) := by
  refine c8_bubbler_no_errors_stable ⟨[]⟩
    [Selection.field "id" "id" (GType.named "ID" true) [] none]
    [("id", J.str "1")] [("id", J.str "1")] ?_
  rw [bubbleUpNullValuesInPlace]
  rw [bubbleFields]
  simp [goLookup, bubbleFields]
